import Mathlib

/-!
Verification of the WhatsTrending trend-aggregation core.

This file gives a shallow embedding, in Lean 4, of the pure core of the
repository: the rate-limiting layer (`src/tiktok_api.py`, class
`RateLimitHandler`), the multi-source trend merge
(`src/tiktok_automation.py`, `TikTokTrendScraper._merge_hashtag_data`, and
the dict-comprehension dedups in `src/tiktok_trend_scraper.py` and
`src/tiktok_api.py`), the transcript segmenter
(`TikTokContentPipeline._analyze_transcription`), and the originality
validator (`TikTokContentPipeline._validate_script_originality`), together
with theorems settling the specification claims about them.

Modelling conventions:
  * Python strings are Lean `String`s; the Python string methods used by the
    code (`split`, `strip`, `lower`, `join`, `endswith`) are re-implemented
    below on `List Char` with Python semantics.
  * Python `int` is `Int` (counts) or `Nat` (times); Python float results of
    `/` and the `0.5` similarity threshold are modelled exactly in `ℚ`
    (the cardinalities involved are far below the range where IEEE-754
    rounding could disagree with the exact comparison).
  * Python `datetime.now()` is an explicit `Nat` time-in-seconds argument;
    `timedelta.seconds` of an in-range difference is truncated subtraction;
    `asyncio.sleep w` followed by `datetime.now()` is modelled as the ideal
    `now + w` (no other time passes during a call).
  * A raised Python exception is `Except.error` carrying the message;
    Python `dict`s keyed by strings are insertion-ordered association lists,
    exactly as CPython preserves insertion order.
-/

/-! ## Python string primitives -/

/-- Python whitespace for `str.split()`/`str.strip()` (ASCII range). -/
def pyIsSpace (c : Char) : Bool :=
  c = ' ' || c = '\t' || c = '\n' || c = '\r' || c = '\x0b' || c = '\x0c'

/-- Split a character list at every character satisfying `p`, keeping empty
pieces: the semantics of Python `str.split(sep)` for a one-character `sep`
(with `p` matching exactly `sep`). -/
def splitPredList (p : Char → Bool) : List Char → List (List Char)
  | [] => [[]]
  | x :: xs =>
    match splitPredList p xs with
    | [] => [[x]]
    | h :: t => if p x then [] :: h :: t else (x :: h) :: t

/-- Python `s.split(c)` for a single-character separator `c`. -/
def pySplitOnChar (c : Char) (s : String) : List String :=
  (splitPredList (fun x => x = c) s.data).map (fun l => (⟨l⟩ : String))

/-- Python `s.split()`: split on whitespace runs, dropping empty tokens. -/
def pyWords (s : String) : List String :=
  ((splitPredList pyIsSpace s.data).filter (fun w => w ≠ [])).map
    (fun l => (⟨l⟩ : String))

/-- Drop characters satisfying `p` from both ends of a list. -/
def stripBoth (p : Char → Bool) (l : List Char) : List Char :=
  ((l.dropWhile p).reverse.dropWhile p).reverse

/-- Python `s.strip()` (strip whitespace from both ends). -/
def pyStripWS (s : String) : String := ⟨stripBoth pyIsSpace s.data⟩

/-- Python `s.strip("[")` (strip a given character from both ends). -/
def pyStripChar (c : Char) (s : String) : String :=
  ⟨stripBoth (fun x => x = c) s.data⟩

/-- Python `s.lower()` (ASCII case mapping, as in `Char.toLower`). -/
def pyLower (s : String) : String := ⟨s.data.map Char.toLower⟩

/-- Python `sep.join(xs)` on character lists. -/
def pyJoinL (sep : List Char) : List (List Char) → List Char
  | [] => []
  | [x] => x
  | x :: y :: rest => x ++ sep ++ pyJoinL sep (y :: rest)

/-- Python `sep.join(xs)`. -/
def pyJoin (sep : String) (xs : List String) : String :=
  ⟨pyJoinL sep.data (xs.map (fun s => s.data))⟩

/-- Python `" ".join(xs)`. -/
def joinSpace (xs : List String) : String := pyJoin " " xs

/-- Python `s.endswith(suf)`. -/
def pyEndsWith (s suf : String) : Bool := List.isSuffixOf suf.data s.data

/-- The element `l[1]` of a Python list with at least two elements (the
callers below only apply it after guaranteeing that length). -/
def secondEntry : List String → String
  | _ :: x :: _ => x
  | _ => ""

/-! ## Data model (`src/tiktok_types.py`) -/

/-- `TikTokHashtag` dataclass: name, video_count, view_count, optional
description. -/
structure TikTokHashtag where
  name : String
  video_count : Int
  view_count : Int
  description : Option String
deriving DecidableEq, Repr

/-- `TikTokSound` dataclass. -/
structure TikTokSound where
  sound_id : String
  name : String
  author : String
  video_count : Int
  duration : Int
deriving DecidableEq, Repr

/-- `TikTokTrendingVideo` dataclass (the `created_at` timestamp is carried
as a number; no claim depends on it). -/
structure TikTokTrendingVideo where
  video_id : String
  description : String
  author : String
  sound : TikTokSound
  hashtags : List String
  likes : Int
  shares : Int
  comments : Int
  created_at : Int
deriving DecidableEq, Repr

/-! ## Hashtag merge (`TikTokTrendScraper._merge_hashtag_data`,
`src/tiktok_automation.py` lines 151-166) -/

/-- Python truthiness of an `Optional[str]`: `None` and the empty string are
falsy.  This is the test `existing.description` / `tag.description` performs
in `_merge_hashtag_data`. -/
def descTruthy : Option String → Bool
  | none => false
  | some s => s ≠ ""

/-- The description kept after one merge collision: the new description is
taken only when the existing one is falsy and the new one truthy (the
`if not existing.description and tag.description` branch). -/
def mergeDesc (a b : Option String) : Option String :=
  if !descTruthy a && descTruthy b then b else a

/-- The in-place update performed on an existing merge record when another
occurrence of the same name arrives: counts are added, and the description
is overwritten only when the existing one is falsy and the new one truthy. -/
def mergeTag (old tag : TikTokHashtag) : TikTokHashtag :=
  { old with
    video_count := old.video_count + tag.video_count
    view_count := old.view_count + tag.view_count
    description := mergeDesc old.description tag.description }

/-- One iteration of the merge loop body: insert `tag` into the
insertion-ordered table `acc` (a Python dict keyed by name). -/
def mergeInsert (acc : List TikTokHashtag) (tag : TikTokHashtag) :
    List TikTokHashtag :=
  if acc.any (fun x => x.name = tag.name) then
    acc.map (fun x => if x.name = tag.name then mergeTag x tag else x)
  else acc ++ [tag]

/-- The sort order of `sorted(..., key=lambda x: x.view_count, reverse=True)`:
stable descending order by view count. -/
def viewDescOrder (a b : TikTokHashtag) : Prop := b.view_count ≤ a.view_count

instance : DecidableRel viewDescOrder :=
  fun a b => inferInstanceAs (Decidable (b.view_count ≤ a.view_count))

instance : IsTotal TikTokHashtag viewDescOrder :=
  ⟨fun a b => le_total b.view_count a.view_count⟩

instance : IsTrans TikTokHashtag viewDescOrder :=
  ⟨fun _ _ _ h1 h2 => le_trans h2 h1⟩

/-- `_merge_hashtag_data(*hashtag_lists)`: fold all lists into a
name-keyed table, then sort by view count descending. -/
def merge_hashtag_data (hashtag_lists : List (List TikTokHashtag)) :
    List TikTokHashtag :=
  List.insertionSort viewDescOrder (hashtag_lists.flatten.foldl mergeInsert [])

/-- Sum of the `video_count` fields of a list of hashtags. -/
def sumVideoCount (l : List TikTokHashtag) : Int :=
  (l.map (fun h => h.video_count)).sum

/-- Sum of the `view_count` fields of a list of hashtags. -/
def sumViewCount (l : List TikTokHashtag) : Int :=
  (l.map (fun h => h.view_count)).sum

/-- Accumulated description over a list of occurrence descriptions. -/
def accDesc : List (Option String) → Option String
  | [] => none
  | d :: ds => ds.foldl mergeDesc d

/-- The first truthy (non-null, non-empty) description of the list, or the
first description when no truthy one exists.  This is what the merge
actually keeps; `accDesc_eq_firstTruthyDesc` below proves it. -/
def firstTruthyDesc (ds : List (Option String)) : Option String :=
  (ds.find? descTruthy).getD (ds.headD none)

/-- Modelled from the claim C2 wording only (for refutation): the first
non-null description seen in merge order, regardless of emptiness. -/
def firstNonNullDesc (ds : List (Option String)) : Option String :=
  (ds.filterMap id).head?

/-- The single record the merge table holds for name `n` once the listed
occurrences (in merge order) have been processed. -/
def mergedRecord (n : String) (occ : List TikTokHashtag) : TikTokHashtag :=
  ⟨n, sumVideoCount occ, sumViewCount occ,
    accDesc (occ.map (fun h => h.description))⟩

lemma any_iff_filter_ne_nil {α : Type} (p : α → Bool) (l : List α) :
    l.any p = true ↔ l.filter p ≠ [] := by
  induction l with
  | nil => simp
  | cons x xs ih => by_cases h : p x <;> simp [h, ih]

lemma accDesc_append (ds : List (Option String)) (d : Option String)
    (h : ds ≠ []) : accDesc (ds ++ [d]) = mergeDesc (accDesc ds) d := by
  match ds with
  | [] => exact absurd rfl h
  | d0 :: rest => simp [accDesc, List.foldl_append]

lemma foldl_mergeDesc_eq (ds : List (Option String)) (d : Option String) :
    ds.foldl mergeDesc d = ((d :: ds).find? descTruthy).getD d := by
  induction ds generalizing d with
  | nil => cases h : descTruthy d <;> simp [List.find?, h]
  | cons b bs ih =>
    rw [List.foldl_cons, ih]
    by_cases hd : descTruthy d
    · have hm : mergeDesc d b = d := by simp [mergeDesc, hd]
      rw [hm]
      simp [List.find?, hd]
    · by_cases hb : descTruthy b
      · have hm : mergeDesc d b = b := by simp [mergeDesc, hd, hb]
        rw [hm]
        simp only [List.find?]
        rw [show (descTruthy d) = false by simpa using hd,
          show (descTruthy b) = true by simpa using hb]
        simp
      · have hm : mergeDesc d b = d := by simp [mergeDesc, hd, hb]
        rw [hm]
        simp only [List.find?]
        rw [show (descTruthy d) = false by simpa using hd,
          show (descTruthy b) = false by simpa using hb]

lemma accDesc_eq_firstTruthyDesc (ds : List (Option String)) (h : ds ≠ []) :
    accDesc ds = firstTruthyDesc ds := by
  match ds with
  | d :: rest =>
    show rest.foldl mergeDesc d = _
    rw [foldl_mergeDesc_eq]
    simp [firstTruthyDesc]

lemma mergeTag_mergedRecord (n : String) (occ : List TikTokHashtag)
    (t : TikTokHashtag) (h : occ ≠ []) :
    mergeTag (mergedRecord n occ) t = mergedRecord n (occ ++ [t]) := by
  have hds : occ.map (fun h => h.description) ≠ [] := by simpa using h
  simp [mergeTag, mergedRecord, sumVideoCount, sumViewCount, List.map_append,
    accDesc_append _ _ hds]

lemma foldl_mergeInsert_filter (ts : List TikTokHashtag) : ∀ (n : String),
    (ts.foldl mergeInsert []).filter (fun x => x.name = n) =
      if ts.filter (fun x => x.name = n) = [] then []
      else [mergedRecord n (ts.filter (fun x => x.name = n))] := by
  induction ts using List.reverseRecOn with
  | nil => intro n; simp
  | append_singleton ts t ih =>
    intro n
    rw [List.foldl_append, List.foldl_cons, List.foldl_nil]
    by_cases hc : ts.filter (fun x => x.name = t.name) = []
    · -- the incoming name has not been seen yet: the record is appended
      have hany : (ts.foldl mergeInsert []).any (fun x => x.name = t.name)
          = false := by
        rw [← Bool.not_eq_true, any_iff_filter_ne_nil]
        rw [ih t.name, if_pos hc]
        simp
      rw [mergeInsert, hany]
      simp only [Bool.false_eq_true, if_false]
      rw [List.filter_append]
      by_cases hn : t.name = n
      · subst hn
        rw [ih t.name, if_pos hc]
        have hr : (ts ++ [t]).filter (fun x => x.name = t.name) = [t] := by
          rw [List.filter_append, hc]
          simp
        rw [hr]
        obtain ⟨nm, vc, wc, d⟩ := t
        simp [mergedRecord, sumVideoCount, sumViewCount, accDesc]
      · have h1 : List.filter (fun x => decide (x.name = n)) [t] = [] := by
          simp [hn]
        have h2 : (ts ++ [t]).filter (fun x => x.name = n)
            = ts.filter (fun x => x.name = n) := by
          rw [List.filter_append, h1, List.append_nil]
        rw [h1, h2, List.append_nil]
        exact ih n
    · -- the incoming name is already in the table: its record is updated
      have hany : (ts.foldl mergeInsert []).any (fun x => x.name = t.name)
          = true := by
        rw [any_iff_filter_ne_nil, ih t.name, if_neg hc]
        simp
      rw [mergeInsert, hany]
      simp only [if_true]
      have hfname : ∀ x : TikTokHashtag,
          ((if x.name = t.name then mergeTag x t else x) : TikTokHashtag).name
            = x.name := by
        intro x
        by_cases hx : x.name = t.name <;> simp [hx, mergeTag]
      have hmapfilter :
          ((ts.foldl mergeInsert []).map
              (fun x => if x.name = t.name then mergeTag x t else x)).filter
              (fun x => x.name = n) =
            ((ts.foldl mergeInsert []).filter (fun x => x.name = n)).map
              (fun x => if x.name = t.name then mergeTag x t else x) := by
        rw [List.filter_map]
        congr 1
        apply List.filter_congr
        intro x _
        simp [Function.comp, hfname x]
      rw [hmapfilter]
      by_cases hn : t.name = n
      · subst hn
        rw [ih t.name, if_neg hc]
        have hr : (ts ++ [t]).filter (fun x => x.name = t.name)
            = ts.filter (fun x => x.name = t.name) ++ [t] := by
          rw [List.filter_append]
          simp
        rw [hr, if_neg (by simp)]
        have hrec : (mergedRecord t.name
            (ts.filter (fun x => x.name = t.name))).name = t.name := rfl
        rw [List.map_cons, List.map_nil, if_pos hrec,
          mergeTag_mergedRecord _ _ _ hc]
      · have hmapid :
            ((ts.foldl mergeInsert []).filter (fun x => x.name = n)).map
                (fun x => if x.name = t.name then mergeTag x t else x) =
              (ts.foldl mergeInsert []).filter (fun x => x.name = n) := by
          have := List.map_congr_left (l := (ts.foldl mergeInsert []).filter
            (fun x => x.name = n))
            (f := fun x => if x.name = t.name then mergeTag x t else x)
            (g := id) ?_
          · simpa using this
          · intro x hx
            have hxn : x.name = n := by
              have := (List.mem_filter.mp hx).2
              simpa using this
            have hxt : ¬ x.name = t.name := by
              rw [hxn]
              intro hcontra
              exact hn hcontra.symm
            simp [hxt]
        rw [hmapid]
        have h2 : (ts ++ [t]).filter (fun x => x.name = n)
            = ts.filter (fun x => x.name = n) := by
          rw [List.filter_append]
          simp [hn]
        rw [h2]
        exact ih n

/-- Transfer of the per-name characterisation through the final sort: the
sort is a permutation, and a filter with at most one hit is preserved
exactly. -/
lemma merge_hashtag_data_filter (lss : List (List TikTokHashtag))
    (n : String) :
    (merge_hashtag_data lss).filter (fun x => x.name = n) =
      if lss.flatten.filter (fun x => x.name = n) = [] then []
      else [mergedRecord n (lss.flatten.filter (fun x => x.name = n))] := by
  have hperm : List.Perm
      ((merge_hashtag_data lss).filter (fun x => x.name = n))
      ((lss.flatten.foldl mergeInsert []).filter (fun x => x.name = n)) :=
    (List.perm_insertionSort viewDescOrder _).filter _
  rw [foldl_mergeInsert_filter] at hperm
  by_cases hc : lss.flatten.filter (fun x => x.name = n) = []
  · rw [if_pos hc] at hperm ⊢
    exact hperm.eq_nil
  · rw [if_neg hc] at hperm ⊢
    exact List.perm_singleton.mp hperm

/-! ## Generic key-based dedup (the dict-comprehension and
first-occurrence dedups of `src/tiktok_trend_scraper.py` and
`src/tiktok_api.py`) -/

/-- One step of the first-occurrence dedup
(`if sound.sound_id not in sounds: sounds[...] = sound`). -/
def dedupInsertFirst {α : Type} (key : α → String) (acc : List α) (s : α) :
    List α :=
  if acc.any (fun x => key x = key s) then acc else acc ++ [s]

/-- First-occurrence-wins dedup keyed by `key`
(`TikTokSoundAnalyzer.get_trending_sounds`). -/
def dedupByFirst {α : Type} (key : α → String) (xs : List α) : List α :=
  xs.foldl (dedupInsertFirst key) []

/-- One step of a Python dict comprehension `{key(s): s for s in xs}`:
an existing key keeps its insertion position but its value is overwritten. -/
def dedupInsertLast {α : Type} (key : α → String) (acc : List α) (s : α) :
    List α :=
  if acc.any (fun x => key x = key s) then
    acc.map (fun x => if key x = key s then s else x)
  else acc ++ [s]

/-- Last-occurrence-wins dedup keyed by `key`: the semantics of the dict
comprehensions in `TikTokTrendScraper.get_trending_hashtags` and
`TikTokTrendScraper.get_trending_sounds`. -/
def dedupByLast {α : Type} (key : α → String) (xs : List α) : List α :=
  xs.foldl (dedupInsertLast key) []

lemma take_one_append {α : Type} (l1 l2 : List α) (h : l1 ≠ []) :
    (l1 ++ l2).take 1 = l1.take 1 := by
  match l1 with
  | [] => exact absurd rfl h
  | x :: rest => simp

lemma dedupByFirst_filter {α : Type} (key : α → String) (xs : List α) :
    ∀ v : String, (dedupByFirst key xs).filter (fun x => key x = v) =
      (xs.filter (fun x => key x = v)).take 1 := by
  induction xs using List.reverseRecOn with
  | nil => intro v; simp [dedupByFirst]
  | append_singleton ts t ih =>
    intro v
    have hstep : dedupByFirst key (ts ++ [t])
        = dedupInsertFirst key (dedupByFirst key ts) t := by
      simp only [dedupByFirst, List.foldl_append, List.foldl_cons,
        List.foldl_nil]
    rw [hstep]
    have ihf : ∀ w, (dedupByFirst key ts).filter (fun x => key x = w) =
        (ts.filter (fun x => key x = w)).take 1 := ih
    by_cases hc : ts.filter (fun x => key x = key t) = []
    · have hany : (dedupByFirst key ts).any (fun x => key x = key t)
          = false := by
        rw [← Bool.not_eq_true, any_iff_filter_ne_nil, ihf (key t), hc]
        simp
      rw [dedupInsertFirst, hany]
      simp only [Bool.false_eq_true, if_false]
      rw [List.filter_append, List.filter_append]
      by_cases hv : key t = v
      · rw [ihf v, ← hv, hc]
        simp [hv]
      · simp only [List.filter_cons, List.filter_nil]
        rw [if_neg (by simpa using hv)]
        rw [List.append_nil, List.append_nil]
        exact ihf v
    · have hany : (dedupByFirst key ts).any (fun x => key x = key t)
          = true := by
        rw [any_iff_filter_ne_nil, ihf (key t)]
        intro hcontra
        exact hc (by simpa [List.take_eq_nil_iff] using hcontra)
      rw [dedupInsertFirst, hany]
      simp only [if_true]
      rw [List.filter_append]
      by_cases hv : key t = v
      · subst hv
        simp only [List.filter_cons, List.filter_nil, decide_True,
          if_pos rfl]
        rw [ihf (key t), take_one_append _ _ hc]
      · simp only [List.filter_cons, List.filter_nil]
        rw [if_neg (by simpa using hv), List.append_nil]
        exact ihf v

lemma mem_of_getLast?_eq_some {α : Type} {l : List α} {a : α}
    (h : l.getLast? = some a) : a ∈ l := by
  obtain ⟨hne, hEq⟩ :=
    List.mem_getLast?_eq_getLast (Option.mem_def.mpr h)
  rw [hEq]
  exact List.getLast_mem hne

lemma dedupByLast_filter {α : Type} (key : α → String) (xs : List α) :
    ∀ v : String, (dedupByLast key xs).filter (fun x => key x = v) =
      ((xs.filter (fun x => key x = v)).getLast?).toList := by
  induction xs using List.reverseRecOn with
  | nil => intro v; simp [dedupByLast]
  | append_singleton ts t ih =>
    intro v
    have hstep : dedupByLast key (ts ++ [t])
        = dedupInsertLast key (dedupByLast key ts) t := by
      simp only [dedupByLast, List.foldl_append, List.foldl_cons,
        List.foldl_nil]
    rw [hstep]
    by_cases hc : ts.filter (fun x => key x = key t) = []
    · have hany : (dedupByLast key ts).any (fun x => key x = key t)
          = false := by
        rw [← Bool.not_eq_true, any_iff_filter_ne_nil, ih (key t), hc]
        simp
      rw [dedupInsertLast, hany]
      simp only [Bool.false_eq_true, if_false]
      rw [List.filter_append, List.filter_append]
      by_cases hv : key t = v
      · rw [ih v, ← hv, hc]
        simp [hv]
      · simp only [List.filter_cons, List.filter_nil]
        rw [if_neg (by simpa using hv)]
        rw [List.append_nil, List.append_nil]
        exact ih v
    · have hany : (dedupByLast key ts).any (fun x => key x = key t)
          = true := by
        rw [any_iff_filter_ne_nil, ih (key t)]
        intro hcontra
        apply hc
        cases hlast : (ts.filter (fun x => key x = key t)).getLast? with
        | none => exact List.getLast?_eq_none_iff.mp hlast
        | some a => rw [hlast] at hcontra; simp [Option.toList] at hcontra
      rw [dedupInsertLast, hany]
      simp only [if_true]
      have hfkey : ∀ x : α,
          key ((if key x = key t then t else x) : α) = key x := by
        intro x
        by_cases hx : key x = key t
        · simp [hx]
        · simp [hx]
      have hmapfilter :
          ((dedupByLast key ts).map
              (fun x => if key x = key t then t else x)).filter
              (fun x => key x = v) =
            ((dedupByLast key ts).filter (fun x => key x = v)).map
              (fun x => if key x = key t then t else x) := by
        rw [List.filter_map]
        congr 1
        apply List.filter_congr
        intro x _
        simp [Function.comp, hfkey x]
      rw [hmapfilter, List.filter_append]
      by_cases hv : key t = v
      · subst hv
        obtain ⟨a, hlast⟩ : ∃ a,
            (ts.filter (fun x => key x = key t)).getLast? = some a := by
          cases hl : (ts.filter (fun x => key x = key t)).getLast? with
          | none => exact absurd (List.getLast?_eq_none_iff.mp hl) hc
          | some a => exact ⟨a, rfl⟩
        have hka : key a = key t := by
          have hmem : a ∈ ts.filter (fun x => key x = key t) :=
            mem_of_getLast?_eq_some hlast
          have := (List.mem_filter.mp hmem).2
          simpa using this
        rw [ih (key t), hlast]
        simp only [Option.toList, List.map_cons, List.map_nil]
        rw [if_pos hka]
        have hrhs : (ts.filter (fun x => key x = key t)
            ++ List.filter (fun x => decide (key x = key t)) [t]).getLast?
            = some t := by
          simp [List.filter_cons]
        rw [hrhs]
      · have h1 : List.filter (fun x => decide (key x = v)) [t] = [] := by
          simp [hv]
        rw [h1, List.append_nil, ih v]
        have hmapid : ∀ l : List α,
            (∀ x ∈ l, key x = v) →
            l.map (fun x => if key x = key t then t else x) = l := by
          intro l hl
          have := List.map_congr_left (l := l)
            (f := fun x => if key x = key t then t else x) (g := id) ?_
          · simpa using this
          · intro x hx
            have : ¬ key x = key t := by
              rw [hl x hx]
              intro hcontra
              exact hv hcontra.symm
            simp [this]
        apply hmapid
        intro x hx
        cases hl : (ts.filter (fun x => key x = v)).getLast? with
        | none => rw [hl] at hx; simp [Option.toList] at hx
        | some a =>
          rw [hl] at hx
          simp only [Option.toList, List.mem_singleton] at hx
          subst hx
          have hmem : x ∈ ts.filter (fun y => key y = v) :=
            mem_of_getLast?_eq_some hl
          have := (List.mem_filter.mp hmem).2
          simpa using this

lemma any_name_eq_mem_map (l : List TikTokHashtag) (s : String) :
    l.any (fun x => x.name = s) = true ↔
      s ∈ l.map (fun h => h.name) := by
  rw [List.any_eq_true]
  constructor
  · rintro ⟨x, hx, hname⟩
    exact List.mem_map.mpr ⟨x, hx, by simpa using hname⟩
  · intro hmem
    obtain ⟨x, hx, hname⟩ := List.mem_map.mp hmem
    exact ⟨x, hx, by simpa using hname⟩

lemma nodupNames_foldl (ts : List TikTokHashtag) :
    ((ts.foldl mergeInsert []).map (fun h => h.name)).Nodup := by
  induction ts using List.reverseRecOn with
  | nil => simp
  | append_singleton ts t ih =>
    rw [List.foldl_append, List.foldl_cons, List.foldl_nil, mergeInsert]
    by_cases hany : (ts.foldl mergeInsert []).any (fun x => x.name = t.name)
        = true
    · rw [hany]
      simp only [if_true]
      have hmapname : ((ts.foldl mergeInsert []).map
          (fun x => if x.name = t.name then mergeTag x t else x)).map
            (fun h => h.name) =
          (ts.foldl mergeInsert []).map (fun h => h.name) := by
        rw [List.map_map]
        apply List.map_congr_left
        intro x _
        by_cases hx : x.name = t.name <;> simp [Function.comp, hx, mergeTag]
      rw [hmapname]
      exact ih
    · rw [Bool.not_eq_true] at hany
      rw [hany]
      simp only [Bool.false_eq_true, if_false]
      rw [List.map_append]
      rw [List.nodup_append]
      refine ⟨ih, by simp, ?_⟩
      intro s hs hmem
      simp only [List.map_cons, List.map_nil, List.mem_singleton] at hmem
      subst hmem
      have hnot : t.name ∉ (ts.foldl mergeInsert []).map (fun h => h.name) := by
        intro hmem2
        have hcontra := (any_name_eq_mem_map _ _).mpr hmem2
        rw [hany] at hcontra
        exact Bool.false_ne_true hcontra
      exact hnot hs

lemma foldl_mergeInsert_of_nodup (rest : List TikTokHashtag) :
    ∀ acc : List TikTokHashtag,
      (((acc ++ rest).map (fun h => h.name)).Nodup) →
      rest.foldl mergeInsert acc = acc ++ rest := by
  induction rest with
  | nil => intro acc _; simp
  | cons t rest ih =>
    intro acc hnd
    rw [List.foldl_cons]
    have hnotin : t.name ∉ acc.map (fun h => h.name) := by
      rw [List.map_append] at hnd
      have hdisj := List.disjoint_of_nodup_append hnd
      intro hmem
      exact hdisj hmem (by simp)
    have hany : acc.any (fun x => x.name = t.name) = false := by
      rw [← Bool.not_eq_true, any_name_eq_mem_map]
      exact hnotin
    rw [mergeInsert, hany]
    simp only [Bool.false_eq_true, if_false]
    have := ih (acc ++ [t]) (by simpa using hnd)
    simpa using this

/-- Claim C3, counterexample: `_merge_hashtag_data(m, m)` — merging a merged
result with itself as two sources — doubles both counts instead of
returning the same counts per name. -/
theorem merge_self_merge_doubles_counts :
    merge_hashtag_data [merge_hashtag_data [[⟨"a", 1, 2, none⟩]],
        merge_hashtag_data [[⟨"a", 1, 2, none⟩]]]
      = [⟨"a", 2, 4, none⟩] ∧
    merge_hashtag_data [[⟨"a", 1, 2, none⟩]] = [⟨"a", 1, 2, none⟩] := by
  constructor <;> rfl

/-- Claim C3 (amended): re-merging an already-merged result, passed as a
single source, is the identity — names are already unique, so no counts
change and the sort is stable.  (Passing the result twice, as two sources,
sums it with itself; see the counterexample.) -/
theorem merge_hashtag_data_remerge (lss : List (List TikTokHashtag)) :
    merge_hashtag_data [merge_hashtag_data lss] = merge_hashtag_data lss := by
  have hnodup : ((merge_hashtag_data lss).map (fun h => h.name)).Nodup := by
    have hperm : List.Perm (merge_hashtag_data lss)
        (lss.flatten.foldl mergeInsert []) :=
      List.perm_insertionSort viewDescOrder _
    exact ((hperm.map _).nodup_iff).mpr (nodupNames_foldl _)
  have hfold : (merge_hashtag_data lss).foldl mergeInsert []
      = merge_hashtag_data lss := by
    have := foldl_mergeInsert_of_nodup (merge_hashtag_data lss) []
      (by simpa using hnodup)
    simpa using this
  show List.insertionSort viewDescOrder
      ((([merge_hashtag_data lss] : List (List TikTokHashtag)).flatten).foldl
        mergeInsert []) = _
  rw [show ([merge_hashtag_data lss] : List (List TikTokHashtag)).flatten
      = merge_hashtag_data lss by simp]
  rw [hfold]
  exact List.Sorted.insertionSort_eq
    (List.sorted_insertionSort viewDescOrder _)

/-- Claim C2, counterexample: a first occurrence whose description is the
empty string — non-null, but falsy in Python — is overwritten by a later
non-empty description, contradicting `first non-null wins; never
overwritten once set`.  The claim would require the merged description to
stay `some ""` (the first non-null one). -/
theorem merge_hashtag_desc_counterexample :
    merge_hashtag_data [[⟨"a", 1, 10, some ""⟩, ⟨"a", 2, 20, some "later"⟩]]
      = [⟨"a", 3, 30, some "later"⟩] ∧
    firstNonNullDesc [some "", some "later"] = some "" ∧
    some "later" ≠ some "" := by
  refine ⟨rfl, rfl, by simp⟩

/-- Claim C2 (amended): in `_merge_hashtag_data`, the merged output has
exactly one record per distinct name; its counts are the sums over all
occurrences of that name across all inputs; its description is the first
truthy (non-null and non-empty) description in merge order, or else the
first occurrence's description — an empty-string description counts as
missing and may be overwritten.  The separate name-keyed dict-comprehension
dedup in `TikTokTrendScraper.get_trending_hashtags` instead keeps only the
last occurrence per name, with no summing. -/
theorem merge_hashtag_data_per_name_spec
    (lss : List (List TikTokHashtag)) (n : String) :
    ((merge_hashtag_data lss).countP (fun x => x.name = n) =
      if lss.flatten.any (fun x => x.name = n) then 1 else 0) ∧
    (∀ r ∈ merge_hashtag_data lss, r.name = n →
      r.video_count = sumVideoCount (lss.flatten.filter (fun x => x.name = n)) ∧
      r.view_count = sumViewCount (lss.flatten.filter (fun x => x.name = n)) ∧
      r.description = firstTruthyDesc
        ((lss.flatten.filter (fun x => x.name = n)).map
          (fun h => h.description))) ∧
    (∀ ts : List TikTokHashtag,
      (dedupByLast (fun h => h.name) ts).filter (fun x => x.name = n) =
        ((ts.filter (fun x => x.name = n)).getLast?).toList) := by
  refine ⟨?_, ?_, fun ts => dedupByLast_filter (fun h => h.name) ts n⟩
  · rw [List.countP_eq_length_filter, merge_hashtag_data_filter]
    by_cases hc : lss.flatten.filter (fun x => x.name = n) = []
    · rw [if_pos hc, if_neg]
      · rfl
      · rw [any_iff_filter_ne_nil]
        simp [hc]
    · rw [if_neg hc, if_pos]
      · rfl
      · rw [any_iff_filter_ne_nil]
        exact hc
  · intro r hr hname
    have hrf : r ∈ (merge_hashtag_data lss).filter (fun x => x.name = n) :=
      List.mem_filter.mpr ⟨hr, by simpa using hname⟩
    rw [merge_hashtag_data_filter] at hrf
    by_cases hc : lss.flatten.filter (fun x => x.name = n) = []
    · rw [if_pos hc] at hrf
      simp at hrf
    · rw [if_neg hc] at hrf
      have hrEq : r = mergedRecord n (lss.flatten.filter
          (fun x => x.name = n)) := by
        simpa using hrf
      subst hrEq
      refine ⟨rfl, rfl, ?_⟩
      show accDesc _ = _
      apply accDesc_eq_firstTruthyDesc
      simpa using hc

/-- Witness for the amended C2 at a concrete family of inputs: `"a"` occurs
in both sources with counts 1/10 and 2/20, merging to 3/30, with the first
truthy description `"d"` kept. -/
theorem merge_hashtag_data_per_name_spec_witness :
    ((⟨"a", 3, 30, some "d"⟩ : TikTokHashtag) ∈
      merge_hashtag_data [[⟨"a", 1, 10, none⟩],
        [⟨"a", 2, 20, some "d"⟩, ⟨"b", 5, 50, none⟩]]) ∧
    ((merge_hashtag_data [[⟨"a", 1, 10, none⟩],
        [⟨"a", 2, 20, some "d"⟩, ⟨"b", 5, 50, none⟩]]).countP
          (fun x => x.name = "a") =
      if ([[⟨"a", 1, 10, none⟩], [⟨"a", 2, 20, some "d"⟩,
          (⟨"b", 5, 50, none⟩ : TikTokHashtag)]] :
            List (List TikTokHashtag)).flatten.any (fun x => x.name = "a")
        then 1 else 0) ∧
    (⟨"a", 3, 30, some "d"⟩ : TikTokHashtag).video_count =
      sumVideoCount (([[⟨"a", 1, 10, none⟩], [⟨"a", 2, 20, some "d"⟩,
        (⟨"b", 5, 50, none⟩ : TikTokHashtag)]] :
          List (List TikTokHashtag)).flatten.filter
            (fun x => x.name = "a")) ∧
    (⟨"a", 3, 30, some "d"⟩ : TikTokHashtag).description =
      firstTruthyDesc ((([[⟨"a", 1, 10, none⟩], [⟨"a", 2, 20, some "d"⟩,
        (⟨"b", 5, 50, none⟩ : TikTokHashtag)]] :
          List (List TikTokHashtag)).flatten.filter
            (fun x => x.name = "a")).map (fun h => h.description)) := by
  refine ⟨by decide, (merge_hashtag_data_per_name_spec _ "a").1, ?_, ?_⟩
  · exact ((merge_hashtag_data_per_name_spec _ "a").2.1 _ (by decide)
      (by decide)).1
  · exact ((merge_hashtag_data_per_name_spec _ "a").2.1 _ (by decide)
      (by decide)).2.2

/-! ## Sound and hashtag dedup sites (`src/tiktok_trend_scraper.py`
lines 109-117 and 243-251, `src/tiktok_api.py` lines 178-195) -/

/-- `sorted(..., key=lambda x: x.video_count, reverse=True)` on sounds. -/
def soundVcDescOrder (a b : TikTokSound) : Prop :=
  b.video_count ≤ a.video_count

instance : DecidableRel soundVcDescOrder :=
  fun a b => inferInstanceAs (Decidable (b.video_count ≤ a.video_count))

/-- `sorted(..., key=lambda x: x.video_count, reverse=True)` on hashtags
(the scraper sorts its deduplicated hashtags by video count). -/
def tagVcDescOrder (a b : TikTokHashtag) : Prop :=
  b.video_count ≤ a.video_count

instance : DecidableRel tagVcDescOrder :=
  fun a b => inferInstanceAs (Decidable (b.video_count ≤ a.video_count))

/-- `TikTokTrendScraper.get_trending_hashtags` (`tiktok_trend_scraper.py`):
concatenate the three collector outputs, dedup by name with a dict
comprehension (`{tag.name: tag for tag in trending_tags}`), sort by video
count descending, truncate.  The collector outputs are parameters: they
come from the network. -/
def scraper_get_trending_hashtags (api_tags discover_tags sound_tags :
    List TikTokHashtag) (limit : Nat) : List TikTokHashtag :=
  (List.insertionSort tagVcDescOrder
    (dedupByLast (fun h => h.name)
      (api_tags ++ discover_tags ++ sound_tags))).take limit

/-- `TikTokTrendScraper.get_trending_sounds` (`tiktok_trend_scraper.py`
lines 229-251): concatenate API and scraped sounds, dedup by `sound_id`
with a dict comprehension, sort by video count descending, truncate. -/
def scraper_get_trending_sounds (api_sounds scraped_sounds :
    List TikTokSound) (limit : Nat) : List TikTokSound :=
  (List.insertionSort soundVcDescOrder
    (dedupByLast (fun s => s.sound_id)
      (api_sounds ++ scraped_sounds))).take limit

/-- `TikTokSoundAnalyzer.get_trending_sounds` (`tiktok_api.py` lines
178-195): walk the fetched videos' sounds, keeping the first occurrence of
each `sound_id` (`if sound.sound_id not in sounds`), then truncate. -/
def analyzer_get_trending_sounds (videos : List TikTokTrendingVideo)
    (max_results : Nat) : List TikTokSound :=
  (dedupByFirst (fun s => s.sound_id)
    (videos.map (fun v => v.sound))).take max_results

/-- Claim C5, counterexample: the dict-comprehension dedup of
`TikTokTrendScraper.get_trending_sounds` keeps the LAST occurrence of a
duplicated `sound_id`, not the earliest one the claim requires. -/
theorem scraper_sound_dedup_keeps_last :
    scraper_get_trending_sounds []
        [⟨"s1", "First", "a", 5, 10⟩, ⟨"s1", "Second", "b", 7, 20⟩] 10
      = [⟨"s1", "Second", "b", 7, 20⟩] ∧
    ([⟨"s1", "Second", "b", 7, 20⟩] :
        List TikTokSound) ≠ [⟨"s1", "First", "a", 5, 10⟩] := by
  refine ⟨rfl, by simp⟩

/-- Claim C5 (amended): deduplication by `sound_id` leaves exactly one
record per id and never accumulates counts, but the two sites disagree on
which occurrence survives: `TikTokSoundAnalyzer.get_trending_sounds`
(`tiktok_api.py`) keeps the first occurrence, while the dict comprehension
in `TikTokTrendScraper.get_trending_sounds` keeps the last occurrence,
carrying that occurrence's name, author, video_count and duration
unchanged. -/
theorem sound_dedup_per_id_spec (xs : List TikTokSound) (i : String) :
    ((dedupByFirst (fun s => s.sound_id) xs).filter
        (fun s => s.sound_id = i) =
      (xs.filter (fun s => s.sound_id = i)).take 1) ∧
    ((dedupByLast (fun s => s.sound_id) xs).filter
        (fun s => s.sound_id = i) =
      ((xs.filter (fun s => s.sound_id = i)).getLast?).toList) :=
  ⟨dedupByFirst_filter (fun s => s.sound_id) xs i,
    dedupByLast_filter (fun s => s.sound_id) xs i⟩

/-! ## Rate limiter (`src/tiktok_api.py`, `RateLimitHandler`, lines 26-67)

Time is an explicit `Nat` (seconds).  `handle_rate_limit` receives the
current time `now` (Python reads `datetime.now()` once on entry) and
returns the updated handler together with the number of seconds the call
slept (`0` when it did not suspend).  After `await asyncio.sleep(w)` the
code re-reads `datetime.now()`, modelled as `now + w`. -/

/-- One per-category entry of `self.rate_limits`:
`{'calls': ..., 'reset_time': ...}`. -/
structure CatState where
  calls : Nat
  reset_time : Nat
deriving DecidableEq, Repr

/-- `RateLimitHandler`: the `rate_limits` dict, insertion-ordered. -/
structure RateLimitHandler where
  rate_limits : List (String × CatState)
deriving DecidableEq, Repr

/-- `RateLimitHandler.__init__`: all three categories start with zero calls
and the construction-time `reset_time`. -/
def RateLimitHandler.init (now : Nat) : RateLimitHandler :=
  ⟨[("api", ⟨0, now⟩), ("transcription", ⟨0, now⟩), ("web", ⟨0, now⟩)]⟩

/-- `self.max_calls` (per minute); only the three configured keys are ever
looked up (the code checks membership in `rate_limits` first). -/
def max_calls (t : String) : Nat :=
  if t = "api" then 100
  else if t = "transcription" then 50
  else if t = "web" then 30
  else 0

/-- Dict lookup `self.rate_limits[t]`. -/
def lookupType (t : String) : List (String × CatState) → Option CatState
  | [] => none
  | (k, v) :: rest => if k = t then some v else lookupType t rest

/-- Dict update `self.rate_limits[t] = c` for an existing key (keeps the
insertion position, as CPython does). -/
def updateType (t : String) (c : CatState) :
    List (String × CatState) → List (String × CatState)
  | [] => []
  | (k, v) :: rest =>
    if k = t then (k, c) :: rest else (k, v) :: updateType t c rest

/-- `handle_rate_limit(limit_type)` at current time `now`:
raise `ValueError` for an unknown category; reset the counter when more
than a minute has passed; when the counter has reached the ceiling, sleep
`60 - elapsed` seconds, reset the counter and window; finally increment.
Returns the new handler and the slept duration. -/
def handle_rate_limit (h : RateLimitHandler) (t : String) (now : Nat) :
    Except String (RateLimitHandler × Nat) :=
  match lookupType t h.rate_limits with
  | none => .error ("Unknown rate limit type: " ++ t)
  | some limit0 =>
    let limit := if now - limit0.reset_time > 60 then
        (⟨0, now⟩ : CatState)
      else limit0
    if limit.calls ≥ max_calls t then
      let wait_time := 60 - (now - limit.reset_time)
      .ok (⟨updateType t ⟨0 + 1, now + wait_time⟩ h.rate_limits⟩, wait_time)
    else
      .ok (⟨updateType t ⟨limit.calls + 1, limit.reset_time⟩ h.rate_limits⟩, 0)

/-- Run a sequence of `handle_rate_limit` calls on one category, at the
given times, collecting the slept durations. -/
def runCalls (h : RateLimitHandler) (t : String) :
    List Nat → Except String (RateLimitHandler × List Nat)
  | [] => .ok (h, [])
  | now :: rest =>
    match handle_rate_limit h t now with
    | .error e => .error e
    | .ok (h1, w) =>
      match runCalls h1 t rest with
      | .error e => .error e
      | .ok (h2, ws) => .ok (h2, w :: ws)

/-- Run a sequence of `handle_rate_limit` calls on mixed categories
(each event is a category and the time the call starts). -/
def runSeq (h : RateLimitHandler) :
    List (String × Nat) → Except String RateLimitHandler
  | [] => .ok h
  | e :: rest =>
    match handle_rate_limit h e.1 e.2 with
    | .error msg => .error msg
    | .ok (h1, _) => runSeq h1 rest

/-- The configured categories (`'api'`, `'transcription'`, `'web'`). -/
def validCat (t : String) : Prop :=
  t = "api" ∨ t = "transcription" ∨ t = "web"

instance : DecidablePred validCat :=
  fun t => inferInstanceAs
    (Decidable (t = "api" ∨ t = "transcription" ∨ t = "web"))

lemma lookupType_updateType_self (t : String) (c : CatState) :
    ∀ l : List (String × CatState), (lookupType t l).isSome →
      lookupType t (updateType t c l) = some c := by
  intro l
  induction l with
  | nil => intro h; simp [lookupType] at h
  | cons kv rest ih =>
    intro h
    obtain ⟨k, v⟩ := kv
    by_cases hk : k = t
    · simp [lookupType, updateType, hk]
    · simp only [lookupType, updateType, hk, if_false, if_neg hk] at h ⊢
      exact ih h

lemma lookupType_updateType_ne (t t' : String) (c : CatState)
    (hne : t' ≠ t) : ∀ l : List (String × CatState),
      lookupType t' (updateType t c l) = lookupType t' l := by
  intro l
  induction l with
  | nil => simp [lookupType, updateType]
  | cons kv rest ih =>
    obtain ⟨k, v⟩ := kv
    by_cases hk : k = t
    · subst hk
      have hkt : ¬ k = t' := fun h => hne h.symm
      simp [lookupType, updateType, hkt]
    · simp [lookupType, updateType, hk, ih]

lemma updateType_self_of_lookup (t : String) (c : CatState) :
    ∀ l : List (String × CatState), lookupType t l = some c →
      updateType t c l = l := by
  intro l
  induction l with
  | nil => intro h; simp [lookupType] at h
  | cons kv rest ih =>
    intro h
    obtain ⟨k, v⟩ := kv
    by_cases hk : k = t
    · subst hk
      simp only [lookupType, if_pos rfl] at h
      have hvc : v = c := Option.some.inj h
      simp [updateType, hvc]
    · simp only [lookupType, hk, if_neg hk] at h
      simp [updateType, hk, ih h]

lemma updateType_updateType (t : String) (c c' : CatState) :
    ∀ l : List (String × CatState),
      updateType t c (updateType t c' l) = updateType t c l := by
  intro l
  induction l with
  | nil => rfl
  | cons kv rest ih =>
    obtain ⟨k, v⟩ := kv
    by_cases hk : k = t
    · simp [updateType, hk]
    · simp [updateType, hk, ih]

lemma handle_step_under (h : RateLimitHandler) (t : String)
    (now n rt : Nat) (hlk : lookupType t h.rate_limits = some ⟨n, rt⟩)
    (hwin : now ≤ rt + 60) (hn : n < max_calls t) :
    handle_rate_limit h t now =
      .ok (⟨updateType t ⟨n + 1, rt⟩ h.rate_limits⟩, 0) := by
  have hreset : ¬ (now - rt > 60) := by omega
  have hceil : ¬ (n ≥ max_calls t) := by omega
  simp only [handle_rate_limit, hlk, hreset, if_false, hceil]

lemma handle_step_at_ceiling (h : RateLimitHandler) (t : String)
    (now n rt : Nat) (hlk : lookupType t h.rate_limits = some ⟨n, rt⟩)
    (hwin : now ≤ rt + 60) (hn : n ≥ max_calls t)
    (hmax : 1 ≤ max_calls t) :
    handle_rate_limit h t now =
      .ok (⟨updateType t ⟨1, now + (60 - (now - rt))⟩ h.rate_limits⟩,
        60 - (now - rt)) := by
  have hreset : ¬ (now - rt > 60) := by omega
  simp only [handle_rate_limit, hlk, hreset, if_false, hn]
  simp

lemma runCalls_under_window (t : String) (rt : Nat) :
    ∀ (times : List Nat) (h : RateLimitHandler) (n : Nat),
      lookupType t h.rate_limits = some ⟨n, rt⟩ →
      n + times.length ≤ max_calls t →
      (∀ x ∈ times, x ≤ rt + 60) →
      runCalls h t times =
        .ok (⟨updateType t ⟨n + times.length, rt⟩ h.rate_limits⟩,
          List.replicate times.length 0) := by
  intro times
  induction times with
  | nil =>
    intro h n hlk _ _
    simp only [runCalls, List.length_nil, Nat.add_zero, List.replicate]
    rw [updateType_self_of_lookup t _ h.rate_limits hlk]
  | cons τ rest ih =>
    intro h n hlk hlen hwin
    have hstep := handle_step_under h t τ n rt hlk (hwin τ (by simp))
      (by simp at hlen; omega)
    have hlk1 : lookupType t
        (⟨updateType t ⟨n + 1, rt⟩ h.rate_limits⟩ :
          RateLimitHandler).rate_limits = some ⟨n + 1, rt⟩ :=
      lookupType_updateType_self t _ h.rate_limits (by rw [hlk]; rfl)
    have hrest := ih (⟨updateType t ⟨n + 1, rt⟩ h.rate_limits⟩ :
        RateLimitHandler) (n + 1) hlk1
      (by simp at hlen ⊢; omega) (fun x hx => hwin x (by simp [hx]))
    simp only [runCalls, hstep, hrest]
    rw [updateType_updateType]
    have harith : n + 1 + rest.length = n + (τ :: rest).length := by
      simp only [List.length_cons]
      omega
    rw [harith]
    simp [List.replicate_succ]

lemma lookupType_init (t : String) (t0 : Nat) (hv : validCat t) :
    lookupType t (RateLimitHandler.init t0).rate_limits = some ⟨0, t0⟩ := by
  rcases hv with h | h | h <;> subst h <;> rfl

lemma max_calls_pos (t : String) (hv : validCat t) : 1 ≤ max_calls t := by
  rcases hv with h | h | h <;> subst h <;> decide

/-- Claim C4: starting from a fresh handler created at time `t0`, exactly
`max_calls t` acquisitions on category `t` that all start within the
60-second window `[t0, t0 + 60]` complete with zero sleeps; the next
acquisition inside the window sleeps `60 - (τ - t0)` seconds, after which
the counter is reset and re-incremented to 1 and the window restarts at
the post-sleep time `τ + (60 - (τ - t0))`. -/
theorem rate_limit_window_threshold (t : String) (t0 τ : Nat)
    (times : List Nat) (hv : validCat t)
    (hlen : times.length = max_calls t)
    (htimes : ∀ x ∈ times, t0 ≤ x ∧ x ≤ t0 + 60)
    (hτ1 : t0 ≤ τ) (hτ2 : τ ≤ t0 + 60) :
    runCalls (RateLimitHandler.init t0) t times =
      .ok (⟨updateType t ⟨max_calls t, t0⟩
          (RateLimitHandler.init t0).rate_limits⟩,
        List.replicate (max_calls t) 0) ∧
    handle_rate_limit
        (⟨updateType t ⟨max_calls t, t0⟩
          (RateLimitHandler.init t0).rate_limits⟩ : RateLimitHandler) t τ =
      .ok (⟨updateType t ⟨1, τ + (60 - (τ - t0))⟩
          (updateType t ⟨max_calls t, t0⟩
            (RateLimitHandler.init t0).rate_limits)⟩,
        60 - (τ - t0)) := by
  have hlk0 := lookupType_init t t0 hv
  constructor
  · have h1 := runCalls_under_window t t0 times
      (RateLimitHandler.init t0) 0 hlk0 (by omega)
      (fun x hx => (htimes x hx).2)
    rw [hlen] at h1
    simpa using h1
  · have hlkM : lookupType t
        ((⟨updateType t ⟨max_calls t, t0⟩
          (RateLimitHandler.init t0).rate_limits⟩ :
            RateLimitHandler)).rate_limits = some ⟨max_calls t, t0⟩ :=
      lookupType_updateType_self t _ _ (by rw [hlk0]; rfl)
    exact handle_step_at_ceiling _ t τ (max_calls t) t0 hlkM hτ2
      le_rfl (max_calls_pos t hv)

/-- Witness for C4 on the `'web'` category (ceiling 30): 30 calls at time
0 sleep 0 seconds each, and the 31st call at time 10 sleeps 50 seconds. -/
theorem rate_limit_window_threshold_witness :
    runCalls (RateLimitHandler.init 0) "web" (List.replicate 30 0) =
      .ok (⟨updateType "web" ⟨max_calls "web", 0⟩
          (RateLimitHandler.init 0).rate_limits⟩,
        List.replicate (max_calls "web") 0) ∧
    handle_rate_limit
        (⟨updateType "web" ⟨max_calls "web", 0⟩
          (RateLimitHandler.init 0).rate_limits⟩ : RateLimitHandler)
        "web" 10 =
      .ok (⟨updateType "web" ⟨1, 10 + (60 - (10 - 0))⟩
          (updateType "web" ⟨max_calls "web", 0⟩
            (RateLimitHandler.init 0).rate_limits)⟩,
        60 - (10 - 0)) :=
  rate_limit_window_threshold "web" 0 10 (List.replicate 30 0)
    (by decide) (by decide) (by decide) (by decide) (by decide)

/-- Invariant: every tracked counter is at or below its ceiling. -/
def CallsBounded (h : RateLimitHandler) : Prop :=
  ∀ t cs, lookupType t h.rate_limits = some cs → cs.calls ≤ max_calls t

/-- Invariant: every configured category is tracked. -/
def CatsPresent (h : RateLimitHandler) : Prop :=
  ∀ t, validCat t → (lookupType t h.rate_limits).isSome

lemma updateType_id_of_none (t : String) (c : CatState) :
    ∀ l : List (String × CatState), lookupType t l = none →
      updateType t c l = l := by
  intro l
  induction l with
  | nil => intro _; rfl
  | cons kv rest ih =>
    intro h
    obtain ⟨k, v⟩ := kv
    by_cases hk : k = t
    · simp [lookupType, hk] at h
    · simp only [lookupType, hk, if_neg hk] at h
      simp [updateType, hk, ih h]

lemma callsBounded_update (h : RateLimitHandler) (t : String) (cs : CatState)
    (hb : CallsBounded h) (hcs : cs.calls ≤ max_calls t) :
    CallsBounded ⟨updateType t cs h.rate_limits⟩ := by
  intro t' cs' hlk'
  by_cases ht' : t' = t
  · subst ht'
    cases hsome : lookupType t' h.rate_limits with
    | none =>
      rw [show (⟨updateType t' cs h.rate_limits⟩ :
          RateLimitHandler).rate_limits = updateType t' cs h.rate_limits
            from rfl, updateType_id_of_none t' cs h.rate_limits hsome]
        at hlk'
      rw [hlk'] at hsome
      exact absurd hsome (by simp)
    | some cs0 =>
      have := lookupType_updateType_self t' cs h.rate_limits
        (by rw [hsome]; rfl)
      rw [show (⟨updateType t' cs h.rate_limits⟩ :
          RateLimitHandler).rate_limits = updateType t' cs h.rate_limits
            from rfl, this] at hlk'
      cases Option.some.inj hlk'
      exact hcs
  · rw [show (⟨updateType t cs h.rate_limits⟩ :
        RateLimitHandler).rate_limits = updateType t cs h.rate_limits
          from rfl, lookupType_updateType_ne t t' cs ht'] at hlk'
    exact hb t' cs' hlk'

lemma catsPresent_update (h : RateLimitHandler) (t : String) (cs : CatState)
    (hp : CatsPresent h) : CatsPresent ⟨updateType t cs h.rate_limits⟩ := by
  intro t' hv'
  by_cases ht' : t' = t
  · subst ht'
    have := lookupType_updateType_self t' cs h.rate_limits (hp t' hv')
    rw [show (⟨updateType t' cs h.rate_limits⟩ :
        RateLimitHandler).rate_limits = updateType t' cs h.rate_limits
          from rfl, this]
    rfl
  · rw [show (⟨updateType t cs h.rate_limits⟩ :
        RateLimitHandler).rate_limits = updateType t cs h.rate_limits
          from rfl, lookupType_updateType_ne t t' cs ht']
    exact hp t' hv'

/-- One `handle_rate_limit` call on a valid category always succeeds,
preserves both invariants, and leaves the invoked category's counter in
`[1, ceiling]`. -/
lemma handle_step_invariant (h : RateLimitHandler) (t : String) (now : Nat)
    (hb : CallsBounded h) (hp : CatsPresent h) (hv : validCat t) :
    ∃ h' w cs', handle_rate_limit h t now = .ok (h', w) ∧
      CallsBounded h' ∧ CatsPresent h' ∧
      lookupType t h'.rate_limits = some cs' ∧
      1 ≤ cs'.calls ∧ cs'.calls ≤ max_calls t := by
  obtain ⟨cs0, hlk⟩ : ∃ cs0, lookupType t h.rate_limits = some cs0 := by
    cases hl : lookupType t h.rate_limits with
    | none =>
      have hsome := hp t hv
      rw [hl] at hsome
      exact absurd hsome (by simp)
    | some cs0 => exact ⟨cs0, rfl⟩
  have hmax := max_calls_pos t hv
  by_cases hreset : now - cs0.reset_time > 60
  · -- window elapsed: counter reset to 0, then 0 < ceiling, increment to 1
    refine ⟨⟨updateType t ⟨1, now⟩ h.rate_limits⟩, 0, ⟨1, now⟩, ?_, ?_, ?_,
      ?_, le_rfl, hmax⟩
    · simp only [handle_rate_limit, hlk, hreset, if_true]
      rw [if_neg (by omega : ¬ (0 ≥ max_calls t))]
    · exact callsBounded_update h t ⟨1, now⟩ hb hmax
    · exact catsPresent_update h t ⟨1, now⟩ hp
    · exact lookupType_updateType_self t _ h.rate_limits (by rw [hlk]; rfl)
  · by_cases hceil : cs0.calls ≥ max_calls t
    · -- at the ceiling: sleep, reset, increment to 1
      refine ⟨⟨updateType t ⟨1, now + (60 - (now - cs0.reset_time))⟩
          h.rate_limits⟩, 60 - (now - cs0.reset_time),
        ⟨1, now + (60 - (now - cs0.reset_time))⟩, ?_, ?_, ?_, ?_,
        le_rfl, hmax⟩
      · simp only [handle_rate_limit, hlk, hreset, if_false, hceil]
        simp
      · exact callsBounded_update h t _ hb hmax
      · exact catsPresent_update h t _ hp
      · exact lookupType_updateType_self t _ h.rate_limits
          (by rw [hlk]; rfl)
    · -- under the ceiling: plain increment
      refine ⟨⟨updateType t ⟨cs0.calls + 1, cs0.reset_time⟩
          h.rate_limits⟩, 0, ⟨cs0.calls + 1, cs0.reset_time⟩, ?_, ?_, ?_,
        ?_, by show 1 ≤ cs0.calls + 1; omega,
        by show cs0.calls + 1 ≤ max_calls t; omega⟩
      · simp only [handle_rate_limit, hlk, hreset, if_false]
        rw [if_neg hceil]
      · exact callsBounded_update h t _ hb (by simp; omega)
      · exact catsPresent_update h t _ hp
      · exact lookupType_updateType_self t _ h.rate_limits
          (by rw [hlk]; rfl)

lemma runSeq_invariant :
    ∀ (evs : List (String × Nat)) (h : RateLimitHandler),
      CallsBounded h → CatsPresent h → (∀ e ∈ evs, validCat e.1) →
      ∃ h', runSeq h evs = .ok h' ∧ CallsBounded h' ∧ CatsPresent h' := by
  intro evs
  induction evs with
  | nil => intro h hb hp _; exact ⟨h, rfl, hb, hp⟩
  | cons e rest ih =>
    intro h hb hp hvalid
    obtain ⟨h1, w, cs', hstep, hb1, hp1, _⟩ :=
      handle_step_invariant h e.1 e.2 hb hp (hvalid e (by simp))
    obtain ⟨h2, hrun, hb2, hp2⟩ := ih h1 hb1 hp1
      (fun x hx => hvalid x (by simp [hx]))
    exact ⟨h2, by simp only [runSeq, hstep, hrun], hb2, hp2⟩

lemma runSeq_append (a b : List (String × Nat)) :
    ∀ h : RateLimitHandler, runSeq h (a ++ b) =
      match runSeq h a with
      | .ok h' => runSeq h' b
      | .error e => .error e := by
  induction a with
  | nil => intro h; rfl
  | cons e rest ih =>
    intro h
    rw [List.cons_append]
    cases hh : handle_rate_limit h e.1 e.2 with
    | error msg => simp only [runSeq, hh]
    | ok p =>
      obtain ⟨h1, w⟩ := p
      simp only [runSeq, hh, ih h1]

lemma init_callsBounded (t0 : Nat) :
    CallsBounded (RateLimitHandler.init t0) := by
  intro t cs hlk
  simp only [RateLimitHandler.init, lookupType] at hlk
  split_ifs at hlk <;>
    first
      | (cases Option.some.inj hlk; exact Nat.zero_le _)
      | exact absurd hlk (by simp)

lemma init_catsPresent (t0 : Nat) :
    CatsPresent (RateLimitHandler.init t0) := by
  intro t hv
  rcases hv with h | h | h <;> subst h <;> rfl

/-- Claim C9: for every sequence of sequentially completed
`handle_rate_limit` calls on valid categories, starting from a fresh
handler, each call succeeds and leaves the invoked category's counter in
`[1, ceiling]` (the ceilings being api 100, transcription 50, web 30); and
a call that finds the counter at the ceiling resets it before
incrementing, leaving it at exactly 1. -/
theorem rate_limit_counter_invariant :
    (∀ (t0 : Nat) (p : List (String × Nat)) (c : String) (τ : Nat),
      (∀ e ∈ p, validCat e.1) → validCat c →
      ∃ h cs, runSeq (RateLimitHandler.init t0) (p ++ [(c, τ)]) = .ok h ∧
        lookupType c h.rate_limits = some cs ∧
        1 ≤ cs.calls ∧ cs.calls ≤ max_calls c) ∧
    max_calls "api" = 100 ∧ max_calls "transcription" = 50 ∧
    max_calls "web" = 30 ∧
    (∀ (h : RateLimitHandler) (t : String) (now : Nat) (cs : CatState),
      validCat t → lookupType t h.rate_limits = some cs →
      cs.calls = max_calls t →
      ∃ h' w cs', handle_rate_limit h t now = .ok (h', w) ∧
        lookupType t h'.rate_limits = some cs' ∧ cs'.calls = 1) := by
  refine ⟨?_, rfl, rfl, rfl, ?_⟩
  · intro t0 p c τ hp hc
    obtain ⟨h1, hrun1, hb1, hp1⟩ := runSeq_invariant p
      (RateLimitHandler.init t0) (init_callsBounded t0)
      (init_catsPresent t0) hp
    obtain ⟨h2, w, cs', hstep, _, _, hlk, h1c, h2c⟩ :=
      handle_step_invariant h1 c τ hb1 hp1 hc
    refine ⟨h2, cs', ?_, hlk, h1c, h2c⟩
    rw [runSeq_append, hrun1]
    simp only [runSeq, hstep]
  · intro h t now cs hv hlk hceil
    have hmax := max_calls_pos t hv
    by_cases hreset : now - cs.reset_time > 60
    · refine ⟨⟨updateType t ⟨1, now⟩ h.rate_limits⟩, 0, ⟨1, now⟩, ?_,
        lookupType_updateType_self t _ h.rate_limits (by rw [hlk]; rfl),
        rfl⟩
      simp only [handle_rate_limit, hlk, hreset, if_true]
      rw [if_neg (by omega : ¬ (0 ≥ max_calls t))]
    · have hge : cs.calls ≥ max_calls t := le_of_eq hceil.symm
      refine ⟨⟨updateType t ⟨1, now + (60 - (now - cs.reset_time))⟩
            h.rate_limits⟩, 60 - (now - cs.reset_time),
          ⟨1, now + (60 - (now - cs.reset_time))⟩, ?_,
        lookupType_updateType_self t _ h.rate_limits (by rw [hlk]; rfl),
        rfl⟩
      simp only [handle_rate_limit, hlk, hreset, if_false, hge]
      simp

/-- Witness for C9: a two-call run (`api` then `web`) from a fresh handler
satisfies the counter bounds, and a handler whose `api` counter sits at the
ceiling 100 is reset to exactly 1 by the next call. -/
theorem rate_limit_counter_invariant_witness :
    (∀ e ∈ ([("api", 0)] : List (String × Nat)), validCat e.1) ∧
    validCat "web" ∧
    (∃ h cs, runSeq (RateLimitHandler.init 0)
        ([("api", 0)] ++ [("web", 5)]) = .ok h ∧
      lookupType "web" h.rate_limits = some cs ∧
      1 ≤ cs.calls ∧ cs.calls ≤ max_calls "web") ∧
    (validCat "api" ∧
      lookupType "api" (⟨[("api", ⟨100, 0⟩)]⟩ :
        RateLimitHandler).rate_limits = some ⟨100, 0⟩ ∧
      (⟨100, 0⟩ : CatState).calls = max_calls "api") ∧
    (∃ h' w cs', handle_rate_limit
        (⟨[("api", ⟨100, 0⟩)]⟩ : RateLimitHandler) "api" 30 =
          .ok (h', w) ∧
      lookupType "api" h'.rate_limits = some cs' ∧ cs'.calls = 1) :=
  ⟨by decide, by decide,
    rate_limit_counter_invariant.1 0 [("api", 0)] "web" 5
      (by decide) (by decide),
    ⟨by decide, by decide, by decide⟩,
    rate_limit_counter_invariant.2.2.2.2
      (⟨[("api", ⟨100, 0⟩)]⟩ : RateLimitHandler) "api" 30 ⟨100, 0⟩
      (by decide) (by decide) (by decide)⟩

/-! ## Transcript segmenter
(`TikTokContentPipeline._analyze_transcription`,
`src/tiktok_automation.py` lines 478-525) -/

/-- One parsed transcript segment (the Python dict
`{'start': ..., 'end': ..., 'text': ...}`; the `end` key is named
`endTime` here because `end` is a Lean keyword). -/
structure Segment where
  start : String
  endTime : String
  text : String
deriving DecidableEq, Repr

/-- Parse one transcript line, mirroring the loop body: skip blank lines;
`timestamp, text = line.split(']')` succeeds only when the line holds
exactly one `]`; `start, end = timestamp.strip('[').split('-')` succeeds
only when the bracket-stripped timestamp holds exactly one `-`; any
failure is swallowed (`except Exception: continue`), yielding `none`. -/
def parseLine (line : String) : Option Segment :=
  if pyStripWS line = "" then none
  else
    match pySplitOnChar ']' line with
    | [timestamp, text] =>
      match pySplitOnChar '-' (pyStripChar '[' timestamp) with
      | [s, e] => some ⟨s, e, pyStripWS text⟩
      | _ => none
    | _ => none

/-- The analysis dict returned by `_analyze_transcription`. -/
structure Analysis where
  hooks : List String
  key_points : List String
  call_to_action : Option String
  segment_count : Nat
deriving DecidableEq, Repr

/-- `_analyze_transcription`: parse each line into a segment, then tag
segments starting at `00:00` as hooks, segments whose end ends in `60` as
the call to action (first hit wins), and the rest as key points. -/
def analyze_transcription (transcription : String) : Analysis :=
  let segments := (pySplitOnChar '\n' transcription).filterMap parseLine
  { hooks := (segments.filter (fun g => g.start = "00:00")).map
      (fun g => g.text)
    key_points := (segments.filter (fun g =>
      ¬ (g.start = "00:00" ∨ pyEndsWith g.endTime "60" = true))).map
        (fun g => g.text)
    call_to_action := (segments.find? (fun g =>
      pyEndsWith g.endTime "60")).map (fun g => g.text)
    segment_count := segments.length }

/-- Claim C6: the four-line sample transcript yields exactly 3 segments —
the malformed line is silently dropped — with `Hello` (start `00:00`) the
only hook candidate, `Bye` (end `00:60`) the call-to-action candidate, and
`World` the only key point. -/
theorem analyze_transcription_sample :
    analyze_transcription
        "[00:00-00:05] Hello\n[00:05-00:10] World\nmalformed line\n[00:10-00:60] Bye"
      = ⟨["Hello"], ["World"], some "Bye", 3⟩ := by
  decide

/-- Claim C7, counterexample: a line whose text contains a further `]`
makes `line.split(']')` produce three parts, so the two-target unpacking
raises and the line is silently dropped — no segment with text
`Hello ] world` is emitted. -/
theorem parse_line_extra_bracket_dropped :
    parseLine "[00:00-00:05] Hello ] world" = none ∧
    parseLine "[00:00-00:05] Hello ] world"
      ≠ some ⟨"00:00", "00:05", "Hello ] world"⟩ := by
  exact ⟨by decide, by decide⟩

lemma splitPredList_ne_nil (p : Char → Bool) :
    ∀ l : List Char, splitPredList p l ≠ [] := by
  intro l
  induction l with
  | nil => simp [splitPredList]
  | cons x xs ih =>
    simp only [splitPredList]
    cases hs : splitPredList p xs with
    | nil => simp
    | cons h t => by_cases hx : p x <;> simp [hx]

lemma splitPredList_no_match (p : Char → Bool) :
    ∀ l : List Char, (∀ x ∈ l, p x = false) →
      splitPredList p l = [l] := by
  intro l
  induction l with
  | nil => intro _; rfl
  | cons x xs ih =>
    intro h
    have hx : p x = false := h x (by simp)
    have hxs := ih (fun y hy => h y (by simp [hy]))
    simp only [splitPredList, hxs]
    simp [hx]

lemma splitPredList_split (p : Char → Bool) (c : Char) (l2 : List Char)
    (hc : p c = true) :
    ∀ l1 : List Char, (∀ x ∈ l1, p x = false) →
      splitPredList p (l1 ++ c :: l2) = l1 :: splitPredList p l2 := by
  intro l1
  induction l1 with
  | nil =>
    intro _
    simp only [List.nil_append, splitPredList]
    cases hs : splitPredList p l2 with
    | nil => exact absurd hs (splitPredList_ne_nil p l2)
    | cons h t => simp [hc]
  | cons x l1 ih =>
    intro h
    have hx : p x = false := h x (by simp)
    have hrec := ih (fun y hy => h y (by simp [hy]))
    simp only [List.cons_append, splitPredList, hrec]
    simp [hx]
    rw [hrec]

lemma exists_not_mem_dropWhile (p : Char → Bool) :
    ∀ l : List Char, (∃ c ∈ l, p c = false) →
      ∃ c ∈ l.dropWhile p, p c = false := by
  intro l
  induction l with
  | nil => intro h; simp at h
  | cons x xs ih =>
    intro h
    by_cases hx : p x
    · rw [List.dropWhile_cons, if_pos hx]
      obtain ⟨c, hc, hcp⟩ := h
      rcases List.mem_cons.mp hc with rfl | hcxs
      · rw [hx] at hcp; cases hcp
      · exact ih ⟨c, hcxs, hcp⟩
    · rw [List.dropWhile_cons, if_neg hx]
      exact ⟨x, by simp, by simpa using hx⟩

lemma stripBoth_ne_nil (p : Char → Bool) (l : List Char)
    (h : ∃ c ∈ l, p c = false) : stripBoth p l ≠ [] := by
  unfold stripBoth
  intro hcontra
  rw [List.reverse_eq_nil_iff, List.dropWhile_eq_nil_iff] at hcontra
  obtain ⟨c, hc, hcp⟩ := exists_not_mem_dropWhile p l h
  have hc' : c ∈ (l.dropWhile p).reverse := by simpa using hc
  have := hcontra c hc'
  rw [hcp] at this
  cases this

lemma dropWhile_eq_self_of_head (p : Char → Bool) (l : List Char)
    (h : ∀ c, l.head? = some c → p c = false) : l.dropWhile p = l := by
  cases l with
  | nil => rfl
  | cons x xs =>
    rw [List.dropWhile_cons, if_neg]
    rw [h x rfl]
    simp

lemma stripBoth_eq_self (p : Char → Bool) (l : List Char)
    (hh : ∀ c, l.head? = some c → p c = false)
    (hl : ∀ c, l.getLast? = some c → p c = false) :
    stripBoth p l = l := by
  unfold stripBoth
  rw [dropWhile_eq_self_of_head p l hh]
  rw [dropWhile_eq_self_of_head p l.reverse
    (fun c hc => hl c (by rwa [List.head?_reverse] at hc))]
  exact List.reverse_reverse l

lemma stripBoth_cons_pos (p : Char → Bool) (x : Char) (l : List Char)
    (hx : p x = true) : stripBoth p (x :: l) = stripBoth p l := by
  unfold stripBoth
  rw [List.dropWhile_cons, if_pos hx]

/-- Claim C7 (amended): a non-blank line of the form `[start-end] text`
parses to the segment `(start, end, text.strip())` — the text part may
freely contain `-` — provided the line contains exactly one `]` (so
neither timestamp halves nor the text hold a `]`; a text with a further
`]` makes the two-target unpacking fail and the line is dropped), the
timestamp holds exactly one `-`, and the halves do not start/end with
`[` (which `strip('[')` would eat). -/
theorem parse_line_single_bracket_form (s e txt : String)
    (hs : ∀ c ∈ s.data, c ≠ ']' ∧ c ≠ '-')
    (he : ∀ c ∈ e.data, c ≠ ']' ∧ c ≠ '-')
    (ht : ∀ c ∈ txt.data, c ≠ ']')
    (hsh : ∀ c, s.data.head? = some c → c ≠ '[')
    (hel : ∀ c, e.data.getLast? = some c → c ≠ '[') :
    parseLine ⟨'[' :: s.data ++ '-' :: e.data ++ ']' :: ' ' :: txt.data⟩
      = some ⟨s, e, pyStripWS txt⟩ := by
  have hnot1 : ∀ x ∈ ('[' :: (s.data ++ '-' :: e.data)),
      (decide (x = ']')) = false := by
    intro x hx
    rcases List.mem_cons.mp hx with rfl | hx1
    · decide
    · rcases List.mem_append.mp hx1 with hx2 | hx2
      · simp [(hs x hx2).1]
      · rcases List.mem_cons.mp hx2 with rfl | hx3
        · decide
        · simp [(he x hx3).1]
  have hnot2 : ∀ x ∈ (' ' :: txt.data), (decide (x = ']')) = false := by
    intro x hx
    rcases List.mem_cons.mp hx with rfl | hx1
    · decide
    · simp [ht x hx1]
  have hreshape : '[' :: s.data ++ '-' :: e.data ++ ']' :: ' ' :: txt.data
      = ('[' :: (s.data ++ '-' :: e.data)) ++ ']' :: (' ' :: txt.data) := by
    simp
  have hsplitL : splitPredList (fun x => x = ']')
      ('[' :: s.data ++ '-' :: e.data ++ ']' :: ' ' :: txt.data)
      = ['[' :: (s.data ++ '-' :: e.data), ' ' :: txt.data] := by
    rw [hreshape,
      splitPredList_split (fun x => x = ']') ']' (' ' :: txt.data)
        (by decide) ('[' :: (s.data ++ '-' :: e.data)) hnot1,
      splitPredList_no_match (fun x => x = ']') (' ' :: txt.data) hnot2]
  have hstripTs : stripBoth (fun x => x = '[')
      ('[' :: (s.data ++ '-' :: e.data)) = s.data ++ '-' :: e.data := by
    rw [stripBoth_cons_pos _ _ _ (by decide)]
    apply stripBoth_eq_self
    · intro c hc
      cases hsd : s.data with
      | nil =>
        rw [hsd] at hc
        simp only [List.nil_append, List.head?_cons] at hc
        cases Option.some.inj hc
        decide
      | cons a as =>
        rw [hsd] at hc
        simp only [List.cons_append, List.head?_cons] at hc
        have hac : c = a := (Option.some.inj hc).symm
        rw [hac]
        simpa using hsh a (by rw [hsd]; rfl)
    · intro c hc
      cases hed : e.data with
      | nil =>
        rw [hed] at hc
        have : (s.data ++ ['-']).getLast? = some '-' :=
          List.getLast?_concat s.data
        rw [this] at hc
        cases Option.some.inj hc
        decide
      | cons b bs =>
        rw [hed, List.getLast?_append_cons] at hc
        rw [List.getLast?_cons_cons] at hc
        have := hel c (by rw [hed]; exact hc)
        simpa using this
  have hnotS : ∀ x ∈ s.data, (decide (x = '-')) = false := by
    intro x hx
    simp [(hs x hx).2]
  have hnotE : ∀ x ∈ e.data, (decide (x = '-')) = false := by
    intro x hx
    simp [(he x hx).2]
  have hsplitTs : splitPredList (fun x => x = '-')
      (s.data ++ '-' :: e.data) = [s.data, e.data] := by
    rw [splitPredList_split (fun x => x = '-') '-' e.data (by decide)
        s.data hnotS,
      splitPredList_no_match (fun x => x = '-') e.data hnotE]
  have hblank : ¬ (pyStripWS
      ⟨'[' :: s.data ++ '-' :: e.data ++ ']' :: ' ' :: txt.data⟩ = "") := by
    intro hcontra
    have hdat : stripBoth pyIsSpace
        ('[' :: s.data ++ '-' :: e.data ++ ']' :: ' ' :: txt.data)
        = [] := congrArg String.data hcontra
    exact stripBoth_ne_nil pyIsSpace _ ⟨'[', by simp, by decide⟩ hdat
  show parseLine _ = _
  unfold parseLine
  rw [if_neg hblank]
  show (match pySplitOnChar ']'
      ⟨'[' :: s.data ++ '-' :: e.data ++ ']' :: ' ' :: txt.data⟩ with
    | [timestamp, text] =>
      match pySplitOnChar '-' (pyStripChar '[' timestamp) with
      | [s, e] => some (⟨s, e, pyStripWS text⟩ : Segment)
      | _ => none
    | _ => none) = _
  rw [show pySplitOnChar ']'
      ⟨'[' :: s.data ++ '-' :: e.data ++ ']' :: ' ' :: txt.data⟩
      = [⟨'[' :: (s.data ++ '-' :: e.data)⟩, ⟨' ' :: txt.data⟩] from by
    unfold pySplitOnChar
    rw [show (⟨'[' :: s.data ++ '-' :: e.data ++ ']' :: ' ' :: txt.data⟩ :
        String).data = '[' :: s.data ++ '-' :: e.data ++ ']' :: ' ' ::
          txt.data from rfl, hsplitL]
    rfl]
  show (match pySplitOnChar '-' (pyStripChar '['
      ⟨'[' :: (s.data ++ '-' :: e.data)⟩) with
    | [s, e] => some (⟨s, e, pyStripWS ⟨' ' :: txt.data⟩⟩ : Segment)
    | _ => none) = _
  rw [show pySplitOnChar '-' (pyStripChar '['
      ⟨'[' :: (s.data ++ '-' :: e.data)⟩) = [⟨s.data⟩, ⟨e.data⟩] from by
    unfold pyStripChar pySplitOnChar
    rw [show ((⟨'[' :: (s.data ++ '-' :: e.data)⟩ : String)).data
      = '[' :: (s.data ++ '-' :: e.data) from rfl]
    rw [hstripTs]
    rw [show ((⟨s.data ++ '-' :: e.data⟩ : String)).data
      = s.data ++ '-' :: e.data from rfl]
    rw [hsplitTs]
    rfl]
  show some (⟨⟨s.data⟩, ⟨e.data⟩, pyStripWS ⟨' ' :: txt.data⟩⟩ : Segment)
      = _
  have h1 : (⟨s.data⟩ : String) = s := rfl
  have h2 : (⟨e.data⟩ : String) = e := rfl
  have h3 : pyStripWS ⟨' ' :: txt.data⟩ = pyStripWS txt := by
    unfold pyStripWS
    rw [show ((⟨' ' :: txt.data⟩ : String)).data = ' ' :: txt.data from rfl]
    rw [stripBoth_cons_pos _ _ _ (by decide)]
  rw [h1, h2, h3]

/-- Witness for the amended C7 on a text that itself contains `-`. -/
theorem parse_line_single_bracket_form_witness :
    parseLine ⟨'[' :: ("00:00" : String).data ++ '-' ::
        ("00:05" : String).data ++ ']' :: ' ' ::
          ("Hello - world" : String).data⟩
      = some ⟨"00:00", "00:05", pyStripWS "Hello - world"⟩ :=
  parse_line_single_bracket_form "00:00" "00:05" "Hello - world"
    (by decide) (by decide) (by decide) (by decide) (by decide)

/-! ## Originality validator
(`TikTokContentPipeline._validate_script_originality`,
`src/tiktok_automation.py` lines 636-673) -/

/-- One scene of a generated script (`{'scene': ..., 'duration': ...,
'voiceover': ..., 'visual': ...}`). -/
structure Scene where
  scene : String
  duration : Nat
  voiceover : String
  visual : String
deriving DecidableEq, Repr

/-- The local `script_text` of `_validate_script_originality`: the
lowercased scene voiceovers joined with spaces. -/
def scriptText (scenes : List Scene) : String :=
  joinSpace (scenes.map (fun sc => pyLower sc.voiceover))

/-- The local `transcription_text` of `_validate_script_originality`: the
lowercased, stripped `split(']')[1]` parts of the transcript lines
containing `]`, joined with spaces. -/
def transcriptText (original_transcription : String) : String :=
  joinSpace
    (((pySplitOnChar '\n' original_transcription).filter
        (fun l => l.data.any (fun c => c = ']'))).map
      (fun l => pyLower (pyStripWS (secondEntry (pySplitOnChar ']' l)))))

/-- `_validate_script_originality(script, original_transcription)`:
similarity is `|set(script words) ∩ set(transcript words)| /
|set(script words)|` (1.0 on an empty script word set); accept iff
similarity is below 0.5.  A Python `set` of words is modelled as the
deduplicated word list (first occurrences); its size and intersection
sizes agree with the `Finset` ones, see
`validate_script_originality_iff`. -/
def validate_script_originality (scenes : List Scene)
    (original_transcription : String) : Bool :=
  let script_words := (pyWords (scriptText scenes)).dedup
  let transcription_words :=
    (pyWords (transcriptText original_transcription)).dedup
  let common_words := script_words.filter
    (fun w => w ∈ transcription_words)
  let total_words := script_words.length
  let similarity : ℚ :=
    if total_words > 0 then
      (common_words.length : ℚ) / (total_words : ℚ)
    else 1
  decide (similarity < 1 / 2)

/-- The claim's word set Ws: distinct whitespace-separated words of the
lowercased space-joined concatenation of all scene voiceovers. -/
def scriptWordSet (scenes : List Scene) : Finset String :=
  (pyWords (pyLower (joinSpace
    (scenes.map (fun sc => sc.voiceover))))).toFinset

/-- The claim's word set Wt: distinct words of the lowercased,
bracket-stripped (part after the bracket, trimmed) text of the
transcript's lines containing `]`. -/
def transcriptWordSet (tr : String) : Finset String :=
  (pyWords (pyLower (joinSpace
    (((pySplitOnChar '\n' tr).filter
        (fun l => l.data.any (fun c => c = ']'))).map
      (fun l => pyStripWS (secondEntry (pySplitOnChar ']' l))))))).toFinset

lemma pyJoinL_map_toLower (sep : List Char)
    (hsep : sep.map Char.toLower = sep) :
    ∀ ls : List (List Char),
      pyJoinL sep (ls.map (List.map Char.toLower))
        = (pyJoinL sep ls).map Char.toLower := by
  intro ls
  induction ls with
  | nil => rfl
  | cons x rest ih =>
    cases rest with
    | nil => rfl
    | cons y t =>
      simp only [List.map_cons, pyJoinL] at ih ⊢
      rw [ih]
      simp [List.map_append, hsep]

/-- Lowercasing commutes with space-joining (a space is its own
lowercase). -/
lemma pyLower_joinSpace (xs : List String) :
    pyLower (joinSpace xs) = joinSpace (xs.map pyLower) := by
  unfold pyLower joinSpace pyJoin
  congr 1
  rw [← pyJoinL_map_toLower (" " : String).data (by decide)]
  congr 1
  rw [List.map_map, List.map_map]
  rfl

lemma dedup_filter_mem_length (l l2 : List String) :
    (l.dedup.filter (fun w => w ∈ l2.dedup)).length
      = (l.toFinset ∩ l2.toFinset).card := by
  have hnodup : (l.dedup.filter (fun w => w ∈ l2.dedup)).Nodup :=
    (List.nodup_dedup l).filter _
  rw [← List.toFinset_card_of_nodup hnodup]
  congr 1
  ext w
  simp [List.mem_filter, List.mem_dedup]

/-- Claim C1: the originality check returns `true` exactly when
`|Ws ∩ Wt| / |Ws| < 1/2`, with the ratio read as 1 when `Ws` is empty
(an empty script is always rejected). -/
theorem validate_script_originality_iff (scenes : List Scene)
    (tr : String) :
    validate_script_originality scenes tr = true ↔
      (if scriptWordSet scenes = ∅ then (1 : ℚ)
        else ((scriptWordSet scenes ∩ transcriptWordSet tr).card : ℚ) /
          ((scriptWordSet scenes).card : ℚ)) < 1 / 2 := by
  have hws : (pyWords (scriptText scenes)).toFinset = scriptWordSet scenes := by
    unfold scriptText scriptWordSet
    rw [pyLower_joinSpace, List.map_map]
    rfl
  have hwt : (pyWords (transcriptText tr)).toFinset
      = transcriptWordSet tr := by
    unfold transcriptText transcriptWordSet
    rw [pyLower_joinSpace, List.map_map]
    rfl
  have htot : (pyWords (scriptText scenes)).dedup.length
      = (scriptWordSet scenes).card := by
    rw [← hws, List.card_toFinset]
  have hcom : ((pyWords (scriptText scenes)).dedup.filter
      (fun w => w ∈ (pyWords (transcriptText tr)).dedup)).length
      = (scriptWordSet scenes ∩ transcriptWordSet tr).card := by
    rw [← hws, ← hwt]
    exact dedup_filter_mem_length _ _
  show decide ((if (pyWords (scriptText scenes)).dedup.length > 0 then
      ((((pyWords (scriptText scenes)).dedup.filter
          (fun w => w ∈ (pyWords (transcriptText tr)).dedup)).length : ℚ) /
        (((pyWords (scriptText scenes)).dedup.length : Nat) : ℚ))
      else 1) < 1 / 2) = true ↔ _
  rw [decide_eq_true_eq, htot, hcom]
  by_cases hempty : scriptWordSet scenes = ∅
  · rw [if_pos hempty]
    rw [if_neg (by simp [hempty] : ¬ (scriptWordSet scenes).card > 0)]
  · rw [if_neg hempty]
    rw [if_pos (Finset.card_pos.mpr
      (Finset.nonempty_iff_ne_empty.mpr hempty))]

/-- Integer-arithmetic evaluation form of the originality check, used to
evaluate it on concrete inputs: accept iff the script word set is
non-empty and strictly less than half of it appears in the transcript
word set. -/
lemma validate_script_originality_eval (scenes : List Scene)
    (tr : String) :
    validate_script_originality scenes tr =
      (decide (0 < (pyWords (scriptText scenes)).dedup.length) &&
        decide (2 * ((pyWords (scriptText scenes)).dedup.filter
            (fun w => w ∈ (pyWords (transcriptText tr)).dedup)).length
          < (pyWords (scriptText scenes)).dedup.length)) := by
  show decide ((if (pyWords (scriptText scenes)).dedup.length > 0 then
      ((((pyWords (scriptText scenes)).dedup.filter
          (fun w => w ∈ (pyWords (transcriptText tr)).dedup)).length : ℚ) /
        (((pyWords (scriptText scenes)).dedup.length : Nat) : ℚ))
      else 1) < 1 / 2) = _
  by_cases ht : 0 < (pyWords (scriptText scenes)).dedup.length
  · rw [if_pos ht]
    have h1 : decide (0 < (pyWords (scriptText scenes)).dedup.length)
        = true := by simp [ht]
    rw [h1, Bool.true_and]
    apply decide_eq_decide.mpr
    have htq : (0 : ℚ) <
        (((pyWords (scriptText scenes)).dedup.length : Nat) : ℚ) := by
      exact_mod_cast ht
    rw [div_lt_div_iff htq (by norm_num : (0 : ℚ) < 2)]
    rw [one_mul, mul_comm]
    constructor <;> intro h <;> exact_mod_cast h
  · rw [if_neg ht]
    have h1 : decide (0 < (pyWords (scriptText scenes)).dedup.length)
        = false := by simp [ht]
    rw [h1, Bool.false_and]
    rw [decide_eq_false (by norm_num : ¬ ((1 : ℚ) < 1 / 2))]

/-! ## Script generation pipeline
(`TikTokContentPipeline.process_trending_video`,
`src/tiktok_automation.py` lines 435-634) -/

/-- `TikTokContentType` enum (`src/tiktok_types.py`). -/
inductive TikTokContentType where
  | tutorial
  | storytelling
  | trending_sound
  | transition
  | pov
  | duet
deriving DecidableEq, Repr

/-- The fields of a content template that the script generator consumes
(the nested `structure` dict is never read and is omitted). -/
structure ContentTemplate where
  style : String
  hook : String
  main_content : String
  visuals : String
deriving DecidableEq, Repr

/-- The `TUTORIAL` template literal. -/
def tutorialTemplate : ContentTemplate :=
  ⟨"educational",
    "I\x27ve developed a unique approach to \x7bdescription\x7d. Here\x27s my original tutorial!",
    "Based on my experience, here\x27s my personal step-by-step guide...",
    "Original demonstration with unique perspective"⟩

/-- The `STORYTELLING` template literal. -/
def storytellingTemplate : ContentTemplate :=
  ⟨"narrative",
    "Let me share my personal experience with \x7bdescription\x7d...",
    "Here\x27s what happened and what I learned...",
    "Original footage with emotional storytelling"⟩

/-- `_get_content_template()`: `templates.get(content_type,
templates[TUTORIAL])` — every type other than the two templated ones
falls back to the tutorial template. -/
def get_content_template : TikTokContentType → ContentTemplate
  | .storytelling => storytellingTemplate
  | _ => tutorialTemplate

/-- `_generate_original_script(analysis)`: build the four scenes, taking
the hook / main content / call to action from the analysis when the
corresponding entry is truthy and from the template or a stock line
otherwise.  (Python truthiness: an empty `call_to_action` string counts
as absent.) -/
def generate_original_script (content_type : TikTokContentType)
    (analysis : Analysis) : List Scene :=
  let template := get_content_template content_type
  let original_hook :=
    match analysis.hooks with
    | h :: _ => "I\x27ve discovered a unique way to " ++ pyLower h
    | [] => template.hook
  let main_content :=
    match analysis.key_points with
    | [] => template.main_content
    | ps => "Let me show you my personal approach: " ++ pyJoin " Next, " ps
  let cta :=
    if descTruthy analysis.call_to_action then
      "If you found this helpful, " ++
        pyLower (analysis.call_to_action.getD "")
    else "Don\x27t forget to follow for more unique content like this!"
  [⟨"Hook", 5, original_hook, "Dynamic visuals with text overlay"⟩,
    ⟨"Introduction", 10,
      "I\x27m excited to share my personal experience with this",
      "Creator speaking or demonstrating"⟩,
    ⟨"Main Content", 35, main_content, "Step-by-step demonstration"⟩,
    ⟨"Call to Action", 10, cta, "Engaging end screen"⟩]

/-- The dict returned by `_extract_script_elements`. -/
structure ScriptElements where
  hook : String
  main_content : String
  cta : String
deriving DecidableEq, Repr

/-- `_extract_script_elements(transcription)`: same line parsing as the
analyzer; first `00:00` segment text (or `""`), space-joined middle
segment texts, first `..60` segment text (or `""`). -/
def extract_script_elements (transcription : String) : ScriptElements :=
  let current_segment := (pySplitOnChar '\n' transcription).filterMap
    parseLine
  { hook := ((current_segment.find? (fun g => g.start = "00:00")).map
      (fun g => g.text)).getD ""
    main_content := joinSpace ((current_segment.filter (fun g =>
      ¬ (g.start = "00:00" ∨ pyEndsWith g.endTime "60" = true))).map
        (fun g => g.text))
    cta := ((current_segment.find? (fun g =>
      pyEndsWith g.endTime "60")).map (fun g => g.text)).getD "" }

/-- The dict returned by `process_trending_video` on success. -/
structure ProcessResult where
  script : List Scene
  analysis : Analysis
  originality_score : ℚ
deriving DecidableEq, Repr

/-- `process_trending_video`, given the transcription the external
transcription service produced for the video: analyze it, extract the
(unused) script elements, generate the script, validate originality;
when validation fails the code raises
`ValueError("Generated script is not sufficiently original")`, the
generic handler logs and re-raises, so the exception propagates to the
caller.  The placeholder `originality_score` is the literal `0.85`. -/
def process_trending_video (content_type : TikTokContentType)
    (transcription : String) : Except String ProcessResult :=
  let analysis := analyze_transcription transcription
  let _elements := extract_script_elements transcription
  let script := generate_original_script content_type analysis
  if validate_script_originality script transcription then
    .ok ⟨script, analysis, 85 / 100⟩
  else
    .error "Generated script is not sufficiently original"

set_option maxRecDepth 8000 in
/-- Claim C8, counterexample: on a transcript whose wording the generated
script echoes (similarity 1 ≥ 0.5), `process_trending_video` does not
return a boolean validation verdict — it raises, and the re-raise in the
generic handler propagates the `ValueError` to the caller, modelled as
the `Except.error` result. -/
theorem process_rejection_raises :
    process_trending_video TikTokContentType.tutorial
        "[00:00-00:05] cook pasta\n[00:05-00:10] i\x27ve discovered a unique way to cook pasta i\x27m excited to share my personal experience with this let me show you approach: don\x27t forget follow for more content like this!"
      = .error "Generated script is not sufficiently original" := by
  have hval : validate_script_originality
      (generate_original_script TikTokContentType.tutorial
        (analyze_transcription
          "[00:00-00:05] cook pasta\n[00:05-00:10] i\x27ve discovered a unique way to cook pasta i\x27m excited to share my personal experience with this let me show you approach: don\x27t forget follow for more content like this!"))
      "[00:00-00:05] cook pasta\n[00:05-00:10] i\x27ve discovered a unique way to cook pasta i\x27m excited to share my personal experience with this let me show you approach: don\x27t forget follow for more content like this!"
      = false := by
    rw [validate_script_originality_eval]
    decide
  simp [process_trending_video, hval]

/-- Claim C8 (amended): when the originality check rejects the generated
script, `process_trending_video` raises
`ValueError("Generated script is not sufficiently original")`; the
generic exception handler logs and re-raises, so the rejection aborts the
call as a propagated exception rather than being returned as a boolean
validation verdict. -/
theorem process_rejection_propagates (content_type : TikTokContentType)
    (transcription : String)
    (h : validate_script_originality
      (generate_original_script content_type
        (analyze_transcription transcription)) transcription = false) :
    process_trending_video content_type transcription
      = .error "Generated script is not sufficiently original" := by
  simp [process_trending_video, h]

set_option maxRecDepth 8000 in
/-- Witness for the amended C8 at a concrete rejecting input. -/
theorem process_rejection_propagates_witness :
    process_trending_video TikTokContentType.storytelling
        "[00:00-00:05] cook pasta\n[00:05-00:10] i\x27ve discovered a unique way to cook pasta i\x27m excited to share my personal experience with this let me show you approach: don\x27t forget follow for more content like this!"
      = .error "Generated script is not sufficiently original" :=
  process_rejection_propagates TikTokContentType.storytelling
    "[00:00-00:05] cook pasta\n[00:05-00:10] i\x27ve discovered a unique way to cook pasta i\x27m excited to share my personal experience with this let me show you approach: don\x27t forget follow for more content like this!"
    (by rw [validate_script_originality_eval]; decide)

/-! ## Trend analysis (`TikTokContentPipeline.analyze_trends` and helpers,
`src/tiktok_automation.py` lines 227-433) -/

/-- One entry of `_analyze_sounds` / `_analyze_sound_metrics`. -/
structure SoundMetric where
  id : String
  name : String
  popularity : Int
  potential : ℚ
  engagement_score : ℚ
deriving DecidableEq, Repr

/-- `_analyze_durations` result. -/
structure DurationStats where
  average : ℚ
  most_common : Int
deriving DecidableEq, Repr

/-- `_analyze_hashtags` result (`frequency` is the dict built from the
first five sorted pairs). -/
structure HashtagStats where
  most_used : Option String
  frequency : List (String × Nat)
deriving DecidableEq, Repr

/-- `_analyze_engagement` result. -/
structure EngagementStats where
  average_likes : ℚ
  average_shares : ℚ
  average_comments : ℚ
deriving DecidableEq, Repr

/-- `_analyze_sound_metrics` result. -/
structure SoundAgg where
  average_usage : ℚ
  top_sound : Option SoundMetric
deriving DecidableEq, Repr

/-- `_analyze_content_patterns` result. -/
structure ContentPatterns where
  duration_patterns : DurationStats
  hashtag_patterns : HashtagStats
  engagement_patterns : EngagementStats
deriving DecidableEq, Repr

/-- The nested `analysis` dict of `_analyze_trend_data`. -/
structure InnerAnalysis where
  top_trend : String
  engagement_metrics : EngagementStats
  sound_metrics : SoundAgg
deriving DecidableEq, Repr

/-- The `_analyze_trend_data` result. -/
structure TrendAnalysis where
  top_trend : String
  trending_sounds : List SoundMetric
  content_patterns : ContentPatterns
  analysis : InnerAnalysis
deriving DecidableEq, Repr

/-- The `analyze_trends` result. -/
structure TrendsResult where
  hashtags : List TikTokHashtag
  sounds : List TikTokSound
  videos : List TikTokTrendingVideo
  analysis : TrendAnalysis
deriving DecidableEq, Repr

/-- `_calculate_sound_potential`: the placeholder `0.0`. -/
def calculate_sound_potential (_sound : TikTokSound) : ℚ := 0

/-- `_analyze_sounds(sounds)`. -/
def analyze_sounds (sounds : List TikTokSound) : List SoundMetric :=
  sounds.map (fun sound =>
    ⟨sound.sound_id, sound.name, sound.video_count,
      calculate_sound_potential sound,
      (sound.video_count : ℚ) * (7 / 10)⟩)

/-- Python `max(set(durations), key=durations.count)`: the first maximal
element by count, iterating the distinct durations in first-occurrence
order (CPython set iteration order is unspecified; no claim depends on
which maximal-count duration wins a tie). -/
def mostCommonDuration (durations : List Int) : Int :=
  match durations.dedup with
  | [] => 0
  | d :: ds => ds.foldl
      (fun acc x => if durations.count x > durations.count acc then x
        else acc) d

/-- `_analyze_durations(videos)` (every video's sound has a `duration`
attribute, so the `hasattr` guard always passes). -/
def analyze_durations (videos : List TikTokTrendingVideo) :
    DurationStats :=
  let durations : List Int := videos.map (fun v => v.sound.duration)
  if durations = [] then ⟨0, 0⟩
  else ⟨((durations.sum : Int) : ℚ) / (durations.length : ℚ),
    mostCommonDuration durations⟩

/-- One `hashtag_counts[tag] = hashtag_counts.get(tag, 0) + 1` step on
the insertion-ordered dict. -/
def bumpCount (acc : List (String × Nat)) (tag : String) :
    List (String × Nat) :=
  if acc.any (fun kv => kv.1 = tag) then
    acc.map (fun kv => if kv.1 = tag then (kv.1, kv.2 + 1) else kv)
  else acc ++ [(tag, 1)]

/-- `sorted(..., key=lambda x: x[1], reverse=True)` on count pairs. -/
def pairCountDescOrder (a b : String × Nat) : Prop := b.2 ≤ a.2

instance : DecidableRel pairCountDescOrder :=
  fun a b => inferInstanceAs (Decidable (b.2 ≤ a.2))

/-- `_analyze_hashtags(videos)`. -/
def analyze_hashtags (videos : List TikTokTrendingVideo) : HashtagStats :=
  let hashtag_counts := videos.foldl
    (fun acc v => v.hashtags.foldl bumpCount acc) []
  let sorted_tags := List.insertionSort pairCountDescOrder hashtag_counts
  ⟨sorted_tags.head?.map (fun kv => kv.1), sorted_tags.take 5⟩

/-- `_analyze_engagement(videos)`. -/
def analyze_engagement (videos : List TikTokTrendingVideo) :
    EngagementStats :=
  if videos = [] then ⟨0, 0, 0⟩
  else
    ⟨((videos.map (fun v => v.likes)).sum : ℚ) / (videos.length : ℚ),
      ((videos.map (fun v => v.shares)).sum : ℚ) / (videos.length : ℚ),
      ((videos.map (fun v => v.comments)).sum : ℚ) / (videos.length : ℚ)⟩

/-- `sorted(..., key=lambda x: x['engagement_score'], reverse=True)`. -/
def metricScoreDescOrder (a b : SoundMetric) : Prop :=
  b.engagement_score ≤ a.engagement_score

instance : DecidableRel metricScoreDescOrder :=
  fun a b =>
    inferInstanceAs (Decidable (b.engagement_score ≤ a.engagement_score))

/-- `_analyze_sound_metrics(sounds)`. -/
def analyze_sound_metrics (sounds : List TikTokSound) : SoundAgg :=
  if sounds = [] then ⟨0, none⟩
  else
    let sound_metrics := analyze_sounds sounds
    let sorted_sounds :=
      List.insertionSort metricScoreDescOrder sound_metrics
    ⟨((sound_metrics.map (fun m => m.popularity)).sum : ℚ) /
        (sound_metrics.length : ℚ),
      sorted_sounds.head?⟩

/-- `_analyze_content_patterns(videos)`. -/
def analyze_content_patterns (videos : List TikTokTrendingVideo) :
    ContentPatterns :=
  ⟨analyze_durations videos, analyze_hashtags videos,
    analyze_engagement videos⟩

/-- `_identify_top_trend(hashtags)`:
`max(hashtags, key=lambda h: h.view_count).name` — Python `max` keeps the
first maximal element and raises
`ValueError("max() arg is an empty sequence")` on an empty list. -/
def identify_top_trend (hashtags : List TikTokHashtag) :
    Except String String :=
  match hashtags with
  | [] => .error "max() arg is an empty sequence"
  | h :: t => .ok ((t.foldl
      (fun acc x => if x.view_count > acc.view_count then x else acc)
        h).name)

/-- `_analyze_trend_data(hashtags, sounds, videos)`: the dict literal
evaluates `top_trend` first, so an empty hashtag list raises before any
other field is computed; `_identify_top_trend` is invoked a second time
for the nested dict. -/
def analyze_trend_data (hashtags : List TikTokHashtag)
    (sounds : List TikTokSound) (videos : List TikTokTrendingVideo) :
    Except String TrendAnalysis :=
  match identify_top_trend hashtags with
  | .error e => .error e
  | .ok top1 =>
    match identify_top_trend hashtags with
    | .error e => .error e
    | .ok top2 =>
      .ok ⟨top1, analyze_sounds sounds, analyze_content_patterns videos,
        ⟨top2, analyze_engagement videos, analyze_sound_metrics sounds⟩⟩

/-- `TikTokTrendScraper.get_trending_hashtags` of
`src/tiktok_automation.py`: merge the three collectors' outputs (the
collectors themselves are network-bound and enter as parameters). -/
def automation_get_trending_hashtags (api_tags discover_tags sound_tags :
    List TikTokHashtag) : List TikTokHashtag :=
  merge_hashtag_data [api_tags, discover_tags, sound_tags]

/-- `TikTokContentPipeline.analyze_trends`: gather the collector outputs
and attach `_analyze_trend_data`; an exception from the analysis
propagates out of `analyze_trends`. -/
def analyze_trends (api_tags discover_tags sound_tags :
    List TikTokHashtag) (sounds : List TikTokSound)
    (videos : List TikTokTrendingVideo) : Except String TrendsResult :=
  let hashtags := automation_get_trending_hashtags api_tags discover_tags
    sound_tags
  match analyze_trend_data hashtags sounds videos with
  | .error e => .error e
  | .ok a => .ok ⟨hashtags, sounds, videos, a⟩

/-- Claim C10: when the merged hashtag list is empty — for instance when
every collector returned no data — the public `analyze_trends` raises the
`max()` `ValueError` from `_identify_top_trend` instead of returning a
normal `no trends found` outcome. -/
theorem analyze_trends_empty_hashtags_error
    (l1 l2 l3 : List TikTokHashtag) (sounds : List TikTokSound)
    (videos : List TikTokTrendingVideo)
    (h : merge_hashtag_data [l1, l2, l3] = []) :
    analyze_trends l1 l2 l3 sounds videos
      = .error "max() arg is an empty sequence" := by
  simp [analyze_trends, automation_get_trending_hashtags, h,
    analyze_trend_data, identify_top_trend]

/-- Witness for C10: all three collectors empty. -/
theorem analyze_trends_empty_hashtags_error_witness :
    analyze_trends [] [] [] [] []
      = .error "max() arg is an empty sequence" :=
  analyze_trends_empty_hashtags_error [] [] [] [] [] rfl
